import Mathlib

/-!
Verification development for the OpenAPI-to-Zod schema compiler and
operation template generator of `src/lib/api-modules/openapi.ts`.

The TypeScript code operates on parsed JSON documents (`any`-typed
schema nodes).  We embed JavaScript runtime values as the inductive
type `JVal` and translate each source function into a Lean function of
the same name.  JavaScript behaviours that matter to the source are
modelled explicitly:

* truthiness (`truthy`),
* property access on arbitrary values (`jsGet`; `undefined` for
  missing keys and for named keys of arrays / primitives),
* object spread (`spreadF`, key order and later-wins override as in
  `{...a, ...b}`),
* `Object.entries` / own enumerable fields (`jsFields`; index keys for
  arrays and strings),
* string conversion by template interpolation (`jsToString`),
* thrown `TypeError`s (functions return `Except String _`; the
  `.error` case corresponds to an exception escaping the function).

`Set` dedup in the source uses SameValueZero equality, under which two
distinct object/array literals of a parsed document are never equal;
`sameValueZero` reflects that (structural equality on primitives only).
-/

inductive JVal where
  | undef
  | jnull
  | bool (b : Bool)
  | num (n : Int)
  | str (s : String)
  | arr (xs : List JVal)
  | obj (fs : List (String × JVal))

/-- JavaScript truthiness of a value. -/
def truthy : JVal → Bool
  | .undef => false
  | .jnull => false
  | .bool b => b
  | .num n => n != 0
  | .str s => !s.isEmpty
  | .arr _ => true
  | .obj _ => true

/-- `v !== undefined` (the guard used for `minimum`, `minLength`, ...). -/
def isDef : JVal → Bool
  | .undef => false
  | _ => true

/-- First-match lookup in an association list (JS objects have unique
keys, so first-match agrees with JS property lookup). -/
def lookupF : List (String × JVal) → String → Option JVal
  | [], _ => none
  | (k', v) :: fs, k => if k' == k then some v else lookupF fs k

/-- Replace the value of key `k` in place (JS object spread
`{...o, k: v}` keeps the original insertion position of `k`), or
append it if absent. -/
def setF : List (String × JVal) → String → JVal → List (String × JVal)
  | [], k, v => [(k, v)]
  | (k', v') :: fs, k, v =>
      if k' == k then (k', v) :: fs else (k', v') :: setF fs k v

/-- `{...s, k: v}` for an object `s`. -/
def jsSet (s : JVal) (k : String) (v : JVal) : JVal :=
  match s with
  | .obj fs => .obj (setF fs k v)
  | _ => s

/-- Decimal digit character. -/
def digitChar10 : Nat → Char
  | 0 => '0' | 1 => '1' | 2 => '2' | 3 => '3' | 4 => '4'
  | 5 => '5' | 6 => '6' | 7 => '7' | 8 => '8' | _ => '9'

/-- Decimal representation of a natural number (JS index keys and
array-to-string of naturals). -/
def natToStr (n : Nat) : String :=
  if h : n < 10 then String.mk [digitChar10 n]
  else natToStr (n / 10) ++ String.mk [digitChar10 (n % 10)]
termination_by n
decreasing_by
  exact Nat.div_lt_self (Nat.lt_of_lt_of_le (by norm_num) (Nat.le_of_not_lt h)) (by norm_num)

/-- Index-keyed entries `("0", x0), ("1", x1), ...` of a list. -/
def idxEntries (i : Nat) : List JVal → List (String × JVal)
  | [] => []
  | x :: xs => (natToStr i, x) :: idxEntries (i + 1) xs

/-- Index-keyed single-character entries of a string (JS
`Object.entries("ab") = [["0","a"],["1","b"]]`). -/
def charEntries (i : Nat) : List Char → List (String × JVal)
  | [] => []
  | c :: cs => (natToStr i, .str (String.mk [c])) :: charEntries (i + 1) cs

/-- Own enumerable string-keyed entries of a value: `Object.entries`
for objects / arrays / strings, and the fields contributed by object
spread `{...v}` (primitives, `null` and `undefined` contribute none). -/
def jsFields : JVal → List (String × JVal)
  | .obj fs => fs
  | .arr xs => idxEntries 0 xs
  | .str s => charEntries 0 s.toList
  | _ => []

/-- JS property access `v[k]`: an own enumerable key of an object, of
an array (decimal index keys) or of a string (index keys to one-char
strings); any other access reads as `undefined`.  (The source never
reads a prototype-chain property of these JSON-derived values.) -/
def jsGet (v : JVal) (k : String) : JVal :=
  (lookupF (jsFields v) k).getD JVal.undef

mutual
/-- JS string conversion as used by template interpolation `${v}`. -/
def jsToString : JVal → String
  | .undef => "undefined"
  | .jnull => "null"
  | .bool true => "true"
  | .bool false => "false"
  | .num n => toString n
  | .str s => s
  | .arr xs => String.intercalate "," (jsToStringL xs)
  | .obj _ => "[object Object]"
/-- Elements of `Array.prototype.join(",")`: `null` and `undefined`
render as the empty string. -/
def jsToStringL : List JVal → List String
  | [] => []
  | .undef :: xs => "" :: jsToStringL xs
  | .jnull :: xs => "" :: jsToStringL xs
  | x :: xs => jsToString x :: jsToStringL xs
end

/-- `typeof v === "number"`. -/
def isNum : JVal → Bool
  | .num _ => true
  | _ => false

/-- `t === "null"` (strict string comparison with the literal). -/
def isNullStr : JVal → Bool
  | .str s => s == "null"
  | _ => false

/-- `typeof v === "object"` restricted to truthy values, i.e. the
check `v && typeof v === "object"` used for `additionalProperties`. -/
def isObjectType : JVal → Bool
  | .obj _ => true
  | .arr _ => true
  | _ => false

/-- SameValueZero equality as used by `new Set(...)`: value equality
on primitives; two object/array literals of a parsed document are
distinct references, hence never equal. -/
def sameValueZero : JVal → JVal → Bool
  | .undef, .undef => true
  | .jnull, .jnull => true
  | .bool a, .bool b => a == b
  | .num a, .num b => a == b
  | .str a, .str b => a == b
  | _, _ => false

/-- Insertion-order dedup by SameValueZero (`[...new Set(l)]`). -/
def dedupSVZ (l : List JVal) : List JVal :=
  l.foldl (fun acc x => if acc.any (sameValueZero x) then acc else acc ++ [x]) []

/-- Array spread `[...v]`: arrays spread to their elements, strings to
their characters; any other value is not iterable and throws. -/
def toIterable : JVal → Except String (List JVal)
  | .arr xs => .ok xs
  | .str s => .ok (s.toList.map (fun c => .str (String.mk [c])))
  | _ => .error "TypeError: value is not iterable"

/-- Object spread `{...a, ...b}`: keys of `a` in order with values
overridden by `b` where present, then keys of `b` not in `a`. -/
def spreadF (a b : List (String × JVal)) : List (String × JVal) :=
  (a.map (fun kv => (kv.1, ((lookupF b kv.1).getD kv.2)))) ++
    b.filter (fun kv => (lookupF a kv.1).isNone)

/-- One step of `mergeAllOfSchemas`' reduce:
`const result = { ...merged, ...current };` followed by the
conditional `properties` and `required` merges. -/
def mergeStep (merged current : JVal) : Except String JVal :=
  let rfs := spreadF (jsFields merged) (jsFields current)
  let rfs1 :=
    if truthy (jsGet merged "properties") && truthy (jsGet current "properties") then
      setF rfs "properties"
        (.obj (spreadF (jsFields (jsGet merged "properties"))
                       (jsFields (jsGet current "properties"))))
    else rfs
  if truthy (jsGet merged "required") && truthy (jsGet current "required") then do
    let ra ← toIterable (jsGet merged "required")
    let rc ← toIterable (jsGet current "required")
    .ok (.obj (setF rfs1 "required" (.arr (dedupSVZ (ra ++ rc)))))
  else
    .ok (.obj rfs1)

/-- `mergeAllOfSchemas`: reduce over the branch list starting from the
empty object literal. -/
def mergeAllOfSchemas : List JVal → Except String JVal :=
  go (.obj [])
where
  /-- The fold of `schemas.reduce(..., {})`. -/
  go (acc : JVal) : List JVal → Except String JVal
    | [] => .ok acc
    | c :: rest => do
        let acc' ← mergeStep acc c
        go acc' rest

/-- `collectedRefs.add(name)`: insertion-ordered set insert. -/
def addRef (refs : List String) (n : String) : List String :=
  if n ∈ refs then refs else refs ++ [n]

/-- `"x/y".split("/")` on character lists (JS string split with a
one-character separator). -/
def splitOnSlash : List Char → List (List Char)
  | [] => [[]]
  | c :: rest =>
      match splitOnSlash rest with
      | seg :: segs => if c == '/' then [] :: seg :: segs else (c :: seg) :: segs
      | [] => [[]]

/-- `refParts[refParts.length - 1]` of `$ref.split("/")`. -/
def lastSegment (r : String) : String :=
  String.mk ((splitOnSlash r.toList).getLastD [])

/-- `s.toLowerCase()` (character-wise lowering). -/
def toLowerStr (s : String) : String :=
  String.mk (s.toList.map Char.toLower)

/-- `String(pattern).replace(/\\/g, "\\\\").replace(/"/g, '\\"')`. -/
def escapePattern (s : String) : String :=
  String.mk (s.toList.flatMap (fun c =>
    if c = '\\' then ['\\', '\\']
    else if c = '"' then ['\\', '"']
    else [c]))

/-- The regex test `/^[a-zA-Z_$][a-zA-Z0-9_$]*$/.test(name)`. -/
def isValidIdent (s : String) : Bool :=
  match s.toList with
  | [] => false
  | c :: cs =>
      (c.isAlpha || c == '_' || c == '$') &&
        cs.all (fun d => d.isAlphanum || d == '_' || d == '$')

/-- The `switch (schema.format)` of `handleStringSchema`: known
formats append a validator, unknown formats append nothing. -/
def formatSuffix : JVal → String
  | .str "email" => ".email()"
  | .str "date-time" => ".datetime()"
  | .str "uri" => ".url()"
  | .str "url" => ".url()"
  | .str "uuid" => ".uuid()"
  | .str "date" => ".date()"
  | _ => ""

/-- `handleStringSchema` (no recursion, no ref collection). -/
def handleStringSchema (schema : JVal) : Except String String :=
  if truthy (jsGet schema "enum") then
    match jsGet schema "enum" with
    | .arr vs =>
        .ok ("z.enum([" ++
          String.intercalate ", " (vs.map (fun v => "\"" ++ jsToString v ++ "\"")) ++ "])")
    | _ => .error "TypeError: schema.enum.map is not a function"
  else
    let r0 := "z.string()"
    let r1 := r0 ++ (if truthy (jsGet schema "format") then formatSuffix (jsGet schema "format") else "")
    let r2 := r1 ++ (if truthy (jsGet schema "pattern") then
        ".regex(new RegExp(\"" ++ escapePattern (jsToString (jsGet schema "pattern")) ++ "\"))"
      else "")
    let r3 := r2 ++ (if isDef (jsGet schema "minLength") then
        ".min(" ++ jsToString (jsGet schema "minLength") ++ ")" else "")
    let r4 := r3 ++ (if isDef (jsGet schema "maxLength") then
        ".max(" ++ jsToString (jsGet schema "maxLength") ++ ")" else "")
    .ok r4

/-- The tail of `handleNumberSchema` after the enum short-circuit:
`z.number()`, `.int()`, bounds and `multipleOf`. -/
def handleNumberSchemaBody (schema : JVal) : String :=
  let r0 := "z.number()" ++
    (if (match jsGet schema "type" with | .str "integer" => true | _ => false) then ".int()" else "")
  let r1 := r0 ++ (if isDef (jsGet schema "minimum") then
      (if truthy (jsGet schema "exclusiveMinimum") then ".gt(" else ".gte(") ++
        jsToString (jsGet schema "minimum") ++ ")"
    else "")
  let r2 := r1 ++ (if isDef (jsGet schema "maximum") then
      (if truthy (jsGet schema "exclusiveMaximum") then ".lt(" else ".lte(") ++
        jsToString (jsGet schema "maximum") ++ ")"
    else "")
  r2 ++ (if isDef (jsGet schema "multipleOf") then
      ".refine(val => val % " ++ jsToString (jsGet schema "multipleOf") ++
        " === 0, \x7b message: \"Number must be a multiple of " ++
        jsToString (jsGet schema "multipleOf") ++ "\" \x7d)"
    else "")

/-- `handleNumberSchema` (no recursion, no ref collection). -/
def handleNumberSchema (schema : JVal) : Except String String :=
  if truthy (jsGet schema "enum") then
    match jsGet schema "enum" with
    | .arr vs =>
        let numberEnums := vs.filter isNum
        if !numberEnums.isEmpty then
          .ok ("z.number().refine(val => [" ++
            String.intercalate ", " (numberEnums.map jsToString) ++
            "].includes(val), \x7b message: \"Number must be one of: " ++
            String.intercalate ", " (numberEnums.map jsToString) ++ "\" \x7d)")
        else .ok (handleNumberSchemaBody schema)
    | _ => .error "TypeError: schema.enum.filter is not a function"
  else .ok (handleNumberSchemaBody schema)

/-- The `uniqueItems` refinement text of `handleArraySchema`. -/
def uniqueItemsSuffix : String :=
  ".refine(items => new Set(items).size === items.length, \x7b message: \"Array items must be unique\" \x7d)"

/-! ### Termination measures

`jsize` is plain structural size.  `jad` bounds the nesting depth of
`allOf` keys: merging the branches of an `allOf` strictly decreases it
even though merging can grow the plain size (e.g. string spreads). -/

mutual
def jsize : JVal → Nat
  | .arr xs => 1 + jsizeL xs
  | .obj fs => 1 + jsizeF fs
  | _ => 1
def jsizeL : List JVal → Nat
  | [] => 0
  | x :: xs => jsize x + jsizeL xs
def jsizeF : List (String × JVal) → Nat
  | [] => 0
  | kv :: fs => jsize kv.2 + jsizeF fs
end

/-- Weight of a field key in `jad`: only the key `allOf` counts. -/
def bonusOf (k : String) : Nat :=
  if k == "allOf" then 1 else 0

mutual
def jad : JVal → Nat
  | .obj fs => jadF fs
  | .arr xs => jadA xs
  | _ => 0
def jadA : List JVal → Nat
  | [] => 0
  | x :: xs => max (jad x) (jadA xs)
def jadF : List (String × JVal) → Nat
  | [] => 0
  | kv :: fs => max (bonusOf kv.1 + jad kv.2) (jadF fs)
end

theorem jsize_pos (v : JVal) : 1 ≤ jsize v := by
  cases v <;> simp [jsize]

theorem jsize_le_of_mem {x : JVal} {xs : List JVal} (h : x ∈ xs) : jsize x ≤ jsizeL xs := by
  induction xs with
  | nil => cases h
  | cons y ys ih =>
      rcases List.mem_cons.mp h with rfl | h'
      · simp [jsizeL]
      · have := ih h'
        simp [jsizeL]; omega

theorem jsizeF_le_of_mem {k : String} {v : JVal} {fs : List (String × JVal)}
    (h : (k, v) ∈ fs) : jsize v ≤ jsizeF fs := by
  induction fs with
  | nil => cases h
  | cons kv rest ih =>
      rcases List.mem_cons.mp h with rfl | h'
      · simp [jsizeF]
      · have := ih h'
        simp [jsizeF]; omega

theorem jad_le_of_mem {x : JVal} {xs : List JVal} (h : x ∈ xs) : jad x ≤ jadA xs := by
  induction xs with
  | nil => cases h
  | cons y ys ih =>
      rcases List.mem_cons.mp h with rfl | h'
      · simp [jadA]
      · have := ih h'
        simp [jadA]; omega

theorem jadF_le_of_mem {k : String} {v : JVal} {fs : List (String × JVal)}
    (h : (k, v) ∈ fs) : bonusOf k + jad v ≤ jadF fs := by
  induction fs with
  | nil => cases h
  | cons kv rest ih =>
      rcases List.mem_cons.mp h with rfl | h'
      · simp [jadF]
      · have := ih h'
        simp [jadF]; omega

theorem lookupF_mem {fs : List (String × JVal)} {k : String} {v : JVal}
    (h : lookupF fs k = some v) : (k, v) ∈ fs := by
  induction fs with
  | nil => simp [lookupF] at h
  | cons kv rest ih =>
      rcases kv with ⟨k', v'⟩
      by_cases hk : k' == k
      · simp [lookupF, hk] at h
        have : k' = k := by simpa using hk
        subst this; subst h
        exact List.mem_cons_self _ _
      · simp [lookupF, hk] at h
        exact List.mem_cons_of_mem _ (ih h)

theorem jsGet_cases {s : JVal} {k : String} :
    jsGet s k = .undef ∨ (k, jsGet s k) ∈ jsFields s := by
  rcases h : lookupF (jsFields s) k with _ | v
  · left; simp [jsGet, h]
  · right
    have := lookupF_mem h
    simpa [jsGet, h] using this

theorem truthy_ne_undef {v : JVal} (h : truthy v = true) : v ≠ .undef := by
  intro h'; subst h'; simp [truthy] at h

/-! digit facts: decimal index keys are never the key `allOf`. -/

theorem digitChar10_isDigit (n : Nat) : (digitChar10 n).isDigit := by
  unfold digitChar10
  split <;> decide

theorem natToStr_all_digit (n : Nat) : (natToStr n).data.all Char.isDigit := by
  induction n using natToStr.induct with
  | case1 n h =>
      rw [natToStr, dif_pos h]
      simpa using digitChar10_isDigit n
  | case2 n h ih =>
      rw [natToStr, dif_neg h]
      have h2 : (natToStr (n / 10) ++ String.mk [digitChar10 (n % 10)]).data
          = (natToStr (n / 10)).data ++ [digitChar10 (n % 10)] := by
        simp [String.data_append]
      rw [h2, List.all_append]
      simp only [Bool.and_eq_true]
      exact ⟨ih, by simpa using digitChar10_isDigit (n % 10)⟩

theorem natToStr_ne_allOf (n : Nat) : natToStr n ≠ "allOf" := by
  intro h
  have h1 := natToStr_all_digit n
  rw [h] at h1
  simp [List.all_eq_true] at h1

theorem bonusOf_natToStr (n : Nat) : bonusOf (natToStr n) = 0 := by
  have := natToStr_ne_allOf n
  simp [bonusOf, this]

theorem jadF_idxEntries (i : Nat) (xs : List JVal) : jadF (idxEntries i xs) = jadA xs := by
  induction xs generalizing i with
  | nil => rfl
  | cons x rest ih => simp [idxEntries, jadF, jadA, bonusOf_natToStr, ih]

theorem jadF_charEntries (i : Nat) (cs : List Char) : jadF (charEntries i cs) = 0 := by
  induction cs generalizing i with
  | nil => rfl
  | cons c rest ih => simp [charEntries, jadF, jadA, bonusOf_natToStr, ih, jad]

theorem mem_idxEntries {i : Nat} {xs : List JVal} {k : String} {v : JVal}
    (h : (k, v) ∈ idxEntries i xs) : v ∈ xs := by
  induction xs generalizing i with
  | nil => cases h
  | cons x rest ih =>
      rcases List.mem_cons.mp h with h' | h'
      · cases h'; exact List.mem_cons_self _ _
      · exact List.mem_cons_of_mem _ (ih h')

theorem mem_charEntries {i : Nat} {cs : List Char} {k : String} {v : JVal}
    (h : (k, v) ∈ charEntries i cs) : ∃ c, v = .str (String.mk [c]) := by
  induction cs generalizing i with
  | nil => cases h
  | cons c rest ih =>
      rcases List.mem_cons.mp h with h' | h'
      · cases h'; exact ⟨c, rfl⟩
      · exact ih h'

theorem mem_idxEntries_key {i : Nat} {xs : List JVal} {k : String} {v : JVal}
    (h : (k, v) ∈ idxEntries i xs) : k.data.all Char.isDigit = true := by
  induction xs generalizing i with
  | nil => cases h
  | cons x rest ih =>
      rcases List.mem_cons.mp h with h' | h'
      · have hk : k = natToStr i := by
          injection h' with h1 h2
        subst hk
        simpa using natToStr_all_digit i
      · exact ih h'

theorem mem_charEntries_key {i : Nat} {cs : List Char} {k : String} {v : JVal}
    (h : (k, v) ∈ charEntries i cs) : k.data.all Char.isDigit = true := by
  induction cs generalizing i with
  | nil => cases h
  | cons c rest ih =>
      rcases List.mem_cons.mp h with h' | h'
      · have hk : k = natToStr i := by
          injection h' with h1 h2
        subst hk
        simpa using natToStr_all_digit i
      · exact ih h'

/-- A defined property at a non-decimal key can only come from an
object's own fields. -/
theorem jsGet_nondigit_obj {s : JVal} {k : String}
    (hk : k.data.all Char.isDigit = false) (h : jsGet s k ≠ .undef) :
    ∃ fs, s = .obj fs ∧ (k, jsGet s k) ∈ fs := by
  rcases jsGet_cases (s := s) (k := k) with h' | hmem
  · exact absurd h' h
  · rcases s with _ | _ | b | n | st | xs | fs
    · simp [jsFields] at hmem
    · simp [jsFields] at hmem
    · simp [jsFields] at hmem
    · simp [jsFields] at hmem
    · have := mem_charEntries_key (by simpa [jsFields] using hmem)
      rw [this] at hk
      cases hk
    · have := mem_idxEntries_key (by simpa [jsFields] using hmem)
      rw [this] at hk
      cases hk
    · exact ⟨fs, rfl, hmem⟩

theorem jsize_jsGet_lt {s : JVal} {k : String}
    (hk : k.data.all Char.isDigit = false) (h : jsGet s k ≠ .undef) :
    jsize (jsGet s k) < jsize s := by
  obtain ⟨fs, rfl, hmem⟩ := jsGet_nondigit_obj hk h
  have := jsizeF_le_of_mem hmem
  simp [jsize]
  omega

theorem jad_jsGet_le (s : JVal) (k : String) : jad (jsGet s k) ≤ jad s := by
  rcases jsGet_cases (s := s) (k := k) with h' | hmem
  · simp [h', jad]
  · rcases s with _ | _ | b | n | st | xs | fs
    · simp [jsFields] at hmem
    · simp [jsFields] at hmem
    · simp [jsFields] at hmem
    · simp [jsFields] at hmem
    · rcases mem_charEntries (by simpa [jsFields] using hmem) with ⟨c, hc⟩
      rw [hc]
      simp [jad]
    · have hv := mem_idxEntries (by simpa [jsFields] using hmem)
      have := jad_le_of_mem hv
      simpa [jad] using this
    · simp only [jsFields] at hmem
      have := jadF_le_of_mem hmem
      simp [jad]
      omega

theorem jadF_jsFields_le (v : JVal) : jadF (jsFields v) ≤ jad v := by
  cases v with
  | obj fs => simp [jsFields, jad]
  | arr xs => simp [jsFields, jad, jadF_idxEntries]
  | str s => simp [jsFields, jadF_charEntries]
  | _ => simp [jsFields, jadF]

theorem jadF_append (a b : List (String × JVal)) :
    jadF (a ++ b) = max (jadF a) (jadF b) := by
  induction a with
  | nil => simp [jadF]
  | cons kv rest ih => simp [jadF, ih]; omega

theorem jadF_filter_le (p : String × JVal → Bool) (fs : List (String × JVal)) :
    jadF (fs.filter p) ≤ jadF fs := by
  induction fs with
  | nil => simp [jadF]
  | cons kv rest ih =>
      by_cases h : p kv <;> simp [jadF, h] <;> omega

theorem jadF_map_override_le (a b : List (String × JVal)) :
    jadF (a.map (fun kv => (kv.1, ((lookupF b kv.1).getD kv.2)))) ≤
      max (jadF a) (jadF b) := by
  induction a with
  | nil => simp [jadF]
  | cons kv rest ih =>
      simp only [List.map_cons, jadF]
      rcases hl : lookupF b kv.1 with _ | w
      · simp only [Option.getD_none]
        omega
      · have hw : bonusOf kv.1 + jad w ≤ jadF b := jadF_le_of_mem (lookupF_mem hl)
        simp only [Option.getD_some]
        omega

theorem jadF_spreadF_le (a b : List (String × JVal)) :
    jadF (spreadF a b) ≤ max (jadF a) (jadF b) := by
  rw [spreadF, jadF_append]
  have h2 : jadF (b.filter (fun kv => (lookupF a kv.1).isNone)) ≤ jadF b :=
    jadF_filter_le _ b
  have h1 := jadF_map_override_le a b
  omega

theorem jadF_setF_le (fs : List (String × JVal)) (k : String) (v : JVal) :
    jadF (setF fs k v) ≤ max (jadF fs) (bonusOf k + jad v) := by
  induction fs with
  | nil => simp [setF, jadF]
  | cons kv rest ih =>
      by_cases h : kv.1 == k
      · have hk : kv.1 = k := by simpa using h
        rcases kv with ⟨k', v'⟩
        simp only at hk; subst hk
        simp [setF, jadF]
        omega
      · rcases kv with ⟨k', v'⟩
        simp only [setF, h]
        simp [jadF] at ih ⊢
        omega

theorem jad_toIterable_le {v : JVal} {l : List JVal} (h : toIterable v = .ok l)
    {e : JVal} (he : e ∈ l) : jad e ≤ jad v := by
  cases v with
  | arr xs =>
      simp [toIterable] at h; subst h
      simpa [jad] using jad_le_of_mem he
  | str s =>
      simp [toIterable] at h; subst h
      rcases List.mem_map.mp he with ⟨c, _, rfl⟩
      simp [jad]
  | _ => simp [toIterable] at h

theorem mem_foldl_dedup {e : JVal} :
    ∀ (l acc : List JVal), e ∈ l.foldl
      (fun acc x => if acc.any (sameValueZero x) then acc else acc ++ [x]) acc →
      e ∈ acc ∨ e ∈ l := by
  intro l
  induction l with
  | nil => intro acc h'; exact Or.inl h'
  | cons x rest ih =>
      intro acc h'
      simp only [List.foldl_cons] at h'
      rcases ih _ h' with h'' | h''
      · by_cases hx : acc.any (sameValueZero x)
        · simp [hx] at h''
          exact Or.inl h''
        · simp [hx] at h''
          rcases h'' with h'' | h''
          · exact Or.inl h''
          · exact Or.inr (by simp [h''])
      · exact Or.inr (List.mem_cons_of_mem _ h'')

theorem mem_dedupSVZ {e : JVal} {l : List JVal} (h : e ∈ dedupSVZ l) : e ∈ l := by
  rw [dedupSVZ] at h
  rcases mem_foldl_dedup l [] h with h' | h'
  · cases h'
  · exact h'

theorem jadA_le_of_forall {xs : List JVal} {X : Nat} (h : ∀ e ∈ xs, jad e ≤ X) :
    jadA xs ≤ X ⊔ 0 := by
  induction xs with
  | nil => simp [jadA]
  | cons x rest ih =>
      have hx := h x (List.mem_cons_self _ _)
      have hr := ih (fun e he => h e (List.mem_cons_of_mem _ he))
      simp [jadA] at hr ⊢
      omega

theorem jad_mergeStep_le {a c r : JVal} (h : mergeStep a c = .ok r) :
    jad r ≤ max (jad a) (jad c) := by
  have hfa := jadF_jsFields_le a
  have hfc := jadF_jsFields_le c
  have hspread := jadF_spreadF_le (jsFields a) (jsFields c)
  have hprops : jadF (setF (spreadF (jsFields a) (jsFields c)) "properties"
      (JVal.obj (spreadF (jsFields (jsGet a "properties")) (jsFields (jsGet c "properties"))))) ≤
      max (jad a) (jad c) := by
    have hset := jadF_setF_le (spreadF (jsFields a) (jsFields c)) "properties"
      (JVal.obj (spreadF (jsFields (jsGet a "properties")) (jsFields (jsGet c "properties"))))
    have hpa : jadF (jsFields (jsGet a "properties")) ≤ jad a :=
      le_trans (jadF_jsFields_le _) (jad_jsGet_le a _)
    have hpc : jadF (jsFields (jsGet c "properties")) ≤ jad c :=
      le_trans (jadF_jsFields_le _) (jad_jsGet_le c _)
    have hsp2 := jadF_spreadF_le (jsFields (jsGet a "properties")) (jsFields (jsGet c "properties"))
    have hbonus : bonusOf "properties" = 0 := by decide
    simp only [jad] at hset ⊢
    omega
  have hplain : jadF (spreadF (jsFields a) (jsFields c)) ≤ max (jad a) (jad c) := by
    omega
  rw [mergeStep] at h
  split at h
  · -- required merge branch
    rcases hra : toIterable (jsGet a "required") with e | ra
    · rw [hra] at h; simp [bind, Except.bind] at h
    rcases hrc : toIterable (jsGet c "required") with e | rc
    · rw [hra, hrc] at h; simp [bind, Except.bind] at h
    rw [hra, hrc] at h
    simp only [bind, Except.bind, Except.ok.injEq] at h
    subst h
    have hunion : jad (.arr (dedupSVZ (ra ++ rc))) ≤ max (jad a) (jad c) := by
      have helems : ∀ e ∈ dedupSVZ (ra ++ rc), jad e ≤ max (jad a) (jad c) := by
        intro e he
        rcases List.mem_append.mp (mem_dedupSVZ he) with h' | h'
        · exact le_trans (le_trans (jad_toIterable_le hra h') (jad_jsGet_le a _)) (le_max_left _ _)
        · exact le_trans (le_trans (jad_toIterable_le hrc h') (jad_jsGet_le c _)) (le_max_right _ _)
      have := jadA_le_of_forall helems
      simp [jad] at this ⊢
      omega
    have hbonus : bonusOf "required" = 0 := by decide
    simp only [jad]
    split
    · have hset := jadF_setF_le (setF (spreadF (jsFields a) (jsFields c)) "properties"
        (JVal.obj (spreadF (jsFields (jsGet a "properties")) (jsFields (jsGet c "properties")))))
        "required" (.arr (dedupSVZ (ra ++ rc)))
      omega
    · have hset := jadF_setF_le (spreadF (jsFields a) (jsFields c))
        "required" (.arr (dedupSVZ (ra ++ rc)))
      omega
  · simp only [Except.ok.injEq] at h
    subst h
    simp only [jad]
    split
    · exact hprops
    · exact hplain

theorem jad_mergeGo_le {bs : List JVal} {acc m : JVal} {X : Nat}
    (h : mergeAllOfSchemas.go acc bs = .ok m)
    (hacc : jad acc ≤ X) (hbs : ∀ c ∈ bs, jad c ≤ X) : jad m ≤ X := by
  induction bs generalizing acc with
  | nil =>
      simp [mergeAllOfSchemas.go] at h
      subst h; exact hacc
  | cons c rest ih =>
      rw [mergeAllOfSchemas.go] at h
      rcases hstep : mergeStep acc c with e | acc'
      · rw [hstep] at h; simp [bind, Except.bind] at h
      · rw [hstep] at h
        simp only [bind, Except.bind] at h
        have h1 : jad acc' ≤ X := by
          have := jad_mergeStep_le hstep
          have hc := hbs c (List.mem_cons_self _ _)
          omega
        exact ih h h1 (fun c' hc' => hbs c' (List.mem_cons_of_mem _ hc'))

theorem jad_mergeAllOf_le {bs : List JVal} {m : JVal}
    (h : mergeAllOfSchemas bs = .ok m) : jad m ≤ jadA bs := by
  rw [mergeAllOfSchemas] at h
  refine jad_mergeGo_le h (by simp [jad, jadF]) ?_
  intro c hc
  exact jad_le_of_mem hc

theorem jad_allOf_lt {s : JVal} {bs : List JVal} {m : JVal}
    (hs : jsGet s "allOf" = .arr bs) (h : mergeAllOfSchemas bs = .ok m) :
    jad m < jad s := by
  obtain ⟨fs, rfl, hmem⟩ := jsGet_nondigit_obj (k := "allOf") (by decide)
    (by rw [hs]; intro hc; cases hc)
  · rw [hs] at hmem
    have h1 := jadF_le_of_mem hmem
    have h2 : bonusOf "allOf" = 1 := by decide
    have h3 := jad_mergeAllOf_le h
    simp only [jad] at *
    omega

/-! Bounds for the substitution `{...schema, type: t}`. -/

theorem jsizeF_setF_lt {fs : List (String × JVal)} {k : String} {w : JVal}
    (hl : lookupF fs k = some w) (v : JVal) (hv : jsize v < jsize w) :
    jsizeF (setF fs k v) < jsizeF fs := by
  induction fs with
  | nil => simp [lookupF] at hl
  | cons kv rest ih =>
      rcases kv with ⟨k', v'⟩
      by_cases hk : k' == k
      · simp [lookupF, hk] at hl
        subst hl
        simp [setF, hk, jsizeF]
        omega
      · simp [lookupF, hk] at hl
        have := ih hl
        simp [setF, hk, jsizeF]
        omega

theorem jsSet_type_bounds {s : JVal} {ts : List JVal} {t : JVal}
    (hs : jsGet s "type" = .arr ts) (ht : t ∈ ts) :
    jsize (jsSet s "type" t) < jsize s ∧ jad (jsSet s "type" t) ≤ jad s := by
  obtain ⟨fs, rfl, hmem⟩ := jsGet_nondigit_obj (k := "type") (by decide)
    (by rw [hs]; intro hc; cases hc)
  · have hl : lookupF fs "type" = some (.arr ts) := by
      simp [jsGet, jsFields] at hs
      rcases h'' : lookupF fs "type" with _ | w
      · rw [h''] at hs; simp at hs
      · rw [h''] at hs; simp at hs; rw [hs]
    constructor
    · have hlt : jsize t < jsize (.arr ts) := by
        have := jsize_le_of_mem ht
        simp [jsize]; omega
      have := jsizeF_setF_lt hl t hlt
      simp [jsSet, jsize]
      omega
    · have hjadt : jad t ≤ jad (.arr ts) := by
        have := jad_le_of_mem ht
        simpa [jad] using this
      have harr : jad (.arr ts) ≤ jadF fs := by
        have := jadF_le_of_mem (by rw [hs] at hmem; exact hmem)
        omega
      have hset := jadF_setF_le fs "type" t
      have hbonus : bonusOf "type" = 0 := by decide
      simp [jsSet, jad]
      omega

/-! Bounds for recursion into field members. -/

theorem field_elem_bounds {s : JVal} {xs : List JVal} {k : String}
    (hs : jsGet s k = .arr xs) {b : JVal} (hb : b ∈ xs) :
    jad b ≤ jad s ∧ jsize b < jsize s := by
  have h1 : jad b ≤ jad (jsGet s k) := by
    rw [hs]
    simpa [jad] using jad_le_of_mem hb
  have h2 : jsize b < jsize (jsGet s k) := by
    rw [hs]
    have := jsize_le_of_mem hb
    simp [jsize]; omega
  have h3 := jad_jsGet_le s k
  have h4 : jsize (jsGet s k) < jsize s := by
    rcases jsGet_cases (s := s) (k := k) with h' | hmem
    · rw [hs] at h'; cases h'
    · rcases s with _ | _ | b2 | n2 | st | ys | fs
      · simp [jsFields] at hmem
      · simp [jsFields] at hmem
      · simp [jsFields] at hmem
      · simp [jsFields] at hmem
      · rcases mem_charEntries (by simpa [jsFields] using hmem) with ⟨c, hc⟩
        rw [hs] at hc
        cases hc
      · have hv := mem_idxEntries (by simpa [jsFields] using hmem)
        have h5 := jsize_le_of_mem hv
        simp [jsize]
        omega
      · simp only [jsFields] at hmem
        have h5 := jsizeF_le_of_mem hmem
        simp [jsize]
        omega
  exact ⟨le_trans h1 h3, lt_trans h2 h4⟩

theorem props_entry_bounds {s : JVal} {props : JVal}
    (hs : jsGet s "properties" = props) (hp : props ≠ .undef) {key : String} {v : JVal}
    (hv : (key, v) ∈ jsFields props) :
    jad v ≤ jad s ∧ jsize v < jsize s := by
  have hps : jsize props < jsize s := by
    have := jsize_jsGet_lt (s := s) (k := "properties") (by decide) (by rw [hs]; exact hp)
    rwa [hs] at this
  have hpj : jad props ≤ jad s := by
    have := jad_jsGet_le s "properties"
    rwa [hs] at this
  cases props with
  | obj pfs =>
      simp only [jsFields] at hv
      have h1 := jadF_le_of_mem hv
      have h2 := jsizeF_le_of_mem hv
      constructor
      · have h3 : jad (JVal.obj pfs) = jadF pfs := by simp [jad]
        omega
      · have h3 : jsize (JVal.obj pfs) = 1 + jsizeF pfs := by simp [jsize]
        omega
  | arr xs =>
      have hvmem : v ∈ xs := mem_idxEntries (by simpa [jsFields] using hv)
      have h1 : jad v ≤ jad (.arr xs) := by
        simpa [jad] using jad_le_of_mem hvmem
      have h2 : jsize v < jsize (.arr xs) := by
        have := jsize_le_of_mem hvmem
        simp [jsize]; omega
      exact ⟨le_trans h1 hpj, lt_trans h2 hps⟩
  | str cs =>
      rcases mem_charEntries (by simpa [jsFields] using hv) with ⟨c, rfl⟩
      refine ⟨by simp [jad], ?_⟩
      have h3 : jsize (JVal.str (String.mk [c])) = 1 := by simp [jsize]
      have h4 : jsize (JVal.str cs) = 1 := by simp [jsize]
      omega
  | _ => simp [jsFields] at hv

/-! Lexicographic helpers for the termination goals. -/

theorem lex3_of_lt {a1 a2 b1 b2 c1 c2 : Nat} (h : a1 < a2) :
    Prod.Lex (· < ·) (Prod.Lex (· < ·) (· < ·)) (a1, b1, c1) (a2, b2, c2) :=
  Prod.Lex.left _ _ h

theorem lex3_of_le_lt {a1 a2 b1 b2 c1 c2 : Nat} (h1 : a1 ≤ a2) (h2 : b1 < b2) :
    Prod.Lex (· < ·) (Prod.Lex (· < ·) (· < ·)) (a1, b1, c1) (a2, b2, c2) := by
  rcases lt_or_eq_of_le h1 with h | h
  · exact Prod.Lex.left _ _ h
  · subst h
    exact Prod.Lex.right _ (Prod.Lex.left _ _ h2)

theorem lex3_of_le_le_lt {a1 a2 b1 b2 c1 c2 : Nat} (h1 : a1 ≤ a2) (h2 : b1 ≤ b2)
    (h3 : c1 < c2) :
    Prod.Lex (· < ·) (Prod.Lex (· < ·) (· < ·)) (a1, b1, c1) (a2, b2, c2) := by
  rcases lt_or_eq_of_le h1 with h | h
  · exact Prod.Lex.left _ _ h
  · subst h
    rcases lt_or_eq_of_le h2 with h | h
    · exact Prod.Lex.right _ (Prod.Lex.left _ _ h)
    · subst h
      exact Prod.Lex.right _ (Prod.Lex.right _ h3)

/-! ### The schema compiler `convertJsonSchemaToZod`

The recursive helpers `handleNullableType` / `handleTypeUnion` /
`handleCombinators` / `handleArraySchema` / `handleObjectSchema` are
inlined into the main function (their recursion into
`convertJsonSchemaToZod` forces a joint well-founded definition); the
iteration of `.map` over branch lists / property entries is expressed
by the loop functions `convertSeq` / `convertTypes` / `convertProps`,
which thread the reference set left to right exactly as the mutated
`Set` does in the source.  The `h` arguments are proof-only bounds used
for termination; they carry no computational content. -/

/-- `schema.required?.includes(key)`: nullish `required` yields
`undefined` (falsy); a string checks substring containment; an array
checks SameValueZero membership; other values throw. -/
def requiredIncludes (req : JVal) (key : String) : Except String Bool :=
  match req with
  | .undef => .ok false
  | .jnull => .ok false
  | .str s => .ok ((s.toList.tails).any (fun t => key.toList.isPrefixOf t))
  | .arr xs => .ok (xs.any (fun v => match v with | .str t => t == key | _ => false))
  | _ => .error "TypeError: schema.required.includes is not a function"

/-- Strict equality with a boolean literal (`v === true`, `v === false`). -/
def isExactly (v : JVal) (b : Bool) : Bool :=
  match v with
  | .bool b' => b' == b
  | _ => false

mutual

/-- `convertJsonSchemaToZod` (with the recursive handlers inlined):
priority order is the guard for non-objects, `$ref`, array-valued
`type`, combinators, then the scalar `type` switch. -/
def convertJsonSchemaToZod (schema : JVal) (refs : List String) :
    Except String (String × List String) :=
  -- `if (!schema || typeof schema !== "object") return "z.any()"`:
  -- the guard passes exactly for objects and arrays (null is falsy,
  -- primitives have a different typeof).
  if isObjectType schema then
    -- `if (schema.$ref)`
    if truthy (jsGet schema "$ref") then
      match jsGet schema "$ref" with
      | .str r => .ok (lastSegment r ++ "Schema", addRef refs (lastSegment r))
      | _ => .error "TypeError: schema.$ref.split is not a function"
    else
      match htype : jsGet schema "type" with
      | .arr ts =>
          -- handleNullableType
          if ts.any isNullStr then
            match hnn : ts.filter (fun t => !isNullStr t) with
            | [t] =>
                match convertJsonSchemaToZod (jsSet schema "type" t) refs with
                | .ok (base, refs') => .ok (base ++ ".nullable()", refs')
                | .error e => .error e
            | [] => .ok ("z.null()", refs)
            | t1 :: t2 :: rest =>
                match convertTypes schema (t1 :: t2 :: rest)
                    (by
                      intro t ht
                      refine jsSet_type_bounds htype (List.mem_of_mem_filter (p := fun t => !isNullStr t) ?_)
                      rw [hnn]; exact ht) refs with
                | .ok (parts, refs') =>
                    .ok ((match parts with
                          | [p] => p
                          | ps => "z.union([" ++ String.intercalate ", " ps ++ "])") ++
                      ".nullable()", refs')
                | .error e => .error e
          else
            -- handleTypeUnion on the full list
            match convertTypes schema ts
                (by intro t ht; exact jsSet_type_bounds htype ht) refs with
            | .ok (parts, refs') =>
                .ok ((match parts with
                      | [p] => p
                      | ps => "z.union([" ++ String.intercalate ", " ps ++ "])"), refs')
            | .error e => .error e
      | _ =>
        -- `if (schema.oneOf || schema.anyOf || schema.allOf)` → handleCombinators
        if truthy (jsGet schema "oneOf") || truthy (jsGet schema "anyOf") ||
            truthy (jsGet schema "allOf") then
          if truthy (jsGet schema "oneOf") then
            match honeof : jsGet schema "oneOf" with
            | .arr xs =>
                match convertSeq schema xs
                    (by
                      intro b hb
                      have hbb := field_elem_bounds honeof hb
                      exact ⟨hbb.2, hbb.1⟩) refs with
                | .ok (parts, refs') =>
                    .ok ("z.union([" ++ String.intercalate ", " parts ++ "])", refs')
                | .error e => .error e
            | _ => .error "TypeError: schema.oneOf.map is not a function"
          else if truthy (jsGet schema "anyOf") then
            match hanyof : jsGet schema "anyOf" with
            | .arr xs =>
                match convertSeq schema xs
                    (by
                      intro b hb
                      have hbb := field_elem_bounds hanyof hb
                      exact ⟨hbb.2, hbb.1⟩) refs with
                | .ok (parts, refs') =>
                    .ok ("z.union([" ++ String.intercalate ", " parts ++ "])", refs')
                | .error e => .error e
            | _ => .error "TypeError: schema.anyOf.map is not a function"
          else if truthy (jsGet schema "allOf") then
            match hallof : jsGet schema "allOf" with
            | .arr bs =>
                match hm : mergeAllOfSchemas bs with
                | .ok merged => convertJsonSchemaToZod merged refs
                | .error e => .error e
            | _ => .error "TypeError: schema.allOf.reduce is not a function"
          else .ok ("z.any()", refs)
        else
          -- `switch (schema.type)`
          match jsGet schema "type" with
          | .str "string" =>
              match handleStringSchema schema with
              | .ok z => .ok (z, refs)
              | .error e => .error e
          | .str "number" =>
              match handleNumberSchema schema with
              | .ok z => .ok (z, refs)
              | .error e => .error e
          | .str "integer" =>
              match handleNumberSchema schema with
              | .ok z => .ok (z, refs)
              | .error e => .error e
          | .str "boolean" => .ok ("z.boolean()", refs)
          | .str "array" =>
              -- handleArraySchema
              match (if hti : truthy (jsGet schema "items") = true then
                  convertJsonSchemaToZod (jsGet schema "items") refs
                else .ok ("z.any()", refs)) with
              | .ok (itemS, refs') =>
                  .ok ("z.array(" ++ itemS ++ ")" ++
                    (if isDef (jsGet schema "minItems") then
                      ".min(" ++ jsToString (jsGet schema "minItems") ++ ")" else "") ++
                    (if isDef (jsGet schema "maxItems") then
                      ".max(" ++ jsToString (jsGet schema "maxItems") ++ ")" else "") ++
                    (if truthy (jsGet schema "uniqueItems") then uniqueItemsSuffix else ""),
                    refs')
              | .error e => .error e
          | .str "object" =>
              -- handleObjectSchema
              if hprops : truthy (jsGet schema "properties") = true then
                match convertProps schema (jsFields (jsGet schema "properties"))
                    (jsGet schema "required")
                    (by
                      intro kv hkv
                      obtain ⟨k, v⟩ := kv
                      have hbb := props_entry_bounds rfl (truthy_ne_undef hprops) hkv
                      exact ⟨hbb.2, hbb.1⟩) refs with
                | .ok (fields, refs') =>
                    let base := "z.object(\x7b " ++ String.intercalate ", " fields ++ " \x7d)"
                    if isExactly (jsGet schema "additionalProperties") true then
                      .ok (base ++ ".passthrough()", refs')
                    else if isExactly (jsGet schema "additionalProperties") false then
                      .ok (base ++ ".strict()", refs')
                    else if hap : (truthy (jsGet schema "additionalProperties") &&
                        isObjectType (jsGet schema "additionalProperties")) = true then
                      match convertJsonSchemaToZod (jsGet schema "additionalProperties") refs' with
                      | .ok (apS, refs'') => .ok (base ++ ".catchall(" ++ apS ++ ")", refs'')
                      | .error e => .error e
                    else .ok (base, refs')
                | .error e => .error e
              else .ok ("z.object(\x7b\x7d)", refs)
          | _ => .ok ("z.any()", refs)
  else .ok ("z.any()", refs)
termination_by (jad schema, 2 * jsize schema + 1, 0)
decreasing_by
  · -- nullable single type
    have hb := jsSet_type_bounds htype (List.mem_of_mem_filter (p := fun t => !isNullStr t)
      (by rw [hnn]; exact List.mem_cons_self _ _))
    exact lex3_of_le_lt hb.2 (by omega)
  · -- nullable multi types
    exact lex3_of_le_lt le_rfl (by omega)
  · -- no-null type union
    exact lex3_of_le_lt le_rfl (by omega)
  · -- oneOf branches
    exact lex3_of_le_lt le_rfl (by omega)
  · -- anyOf branches
    exact lex3_of_le_lt le_rfl (by omega)
  · -- merged allOf node
    exact lex3_of_lt (jad_allOf_lt hallof hm)
  · -- items
    have h1 := jad_jsGet_le schema "items"
    have h2 := jsize_jsGet_lt (by decide) (truthy_ne_undef hti)
    exact lex3_of_le_lt h1 (by omega)
  · -- properties
    exact lex3_of_le_lt le_rfl (by omega)
  · -- additionalProperties
    have hap1 : truthy (jsGet schema "additionalProperties") = true := by
      have := hap
      simp only [Bool.and_eq_true] at this
      exact this.1
    have h1 := jad_jsGet_le schema "additionalProperties"
    have h2 := jsize_jsGet_lt (by decide) (truthy_ne_undef hap1)
    exact lex3_of_le_lt h1 (by omega)

/-- The iteration `schema.oneOf.map(s => convertJsonSchemaToZod(s, collectedRefs))`
(also used for `anyOf`), threading the reference set. -/
def convertSeq (s : JVal) (xs : List JVal)
    (h : ∀ b ∈ xs, jsize b < jsize s ∧ jad b ≤ jad s) (refs : List String) :
    Except String (List String × List String) :=
  match xs with
  | [] => .ok ([], refs)
  | b :: rest =>
      match convertJsonSchemaToZod b refs with
      | .ok (z, refs1) =>
          match convertSeq s rest (fun b' hb' => h b' (List.mem_cons_of_mem _ hb')) refs1 with
          | .ok (zs, refs2) => .ok (z :: zs, refs2)
          | .error e => .error e
      | .error e => .error e
termination_by (jad s, 2 * jsize s, xs.length)
decreasing_by
  · have hb := h b (List.mem_cons_self _ _)
    exact lex3_of_le_lt hb.2 (by omega)
  · exact lex3_of_le_le_lt le_rfl le_rfl (by simp [List.length_cons])

/-- The iteration of `handleTypeUnion`:
`types.map(type => convertJsonSchemaToZod({ ...baseSchema, type }, collectedRefs))`. -/
def convertTypes (s : JVal) (ts' : List JVal)
    (h : ∀ t ∈ ts', jsize (jsSet s "type" t) < jsize s ∧ jad (jsSet s "type" t) ≤ jad s)
    (refs : List String) :
    Except String (List String × List String) :=
  match ts' with
  | [] => .ok ([], refs)
  | t :: rest =>
      match convertJsonSchemaToZod (jsSet s "type" t) refs with
      | .ok (z, refs1) =>
          match convertTypes s rest (fun t' ht' => h t' (List.mem_cons_of_mem _ ht')) refs1 with
          | .ok (zs, refs2) => .ok (z :: zs, refs2)
          | .error e => .error e
      | .error e => .error e
termination_by (jad s, 2 * jsize s, ts'.length)
decreasing_by
  · have hb := h t (List.mem_cons_self _ _)
    exact lex3_of_le_lt hb.2 (by omega)
  · exact lex3_of_le_le_lt le_rfl le_rfl (by simp [List.length_cons])

/-- The iteration of `handleObjectSchema` over
`Object.entries(schema.properties)`: convert each property, decide the
required marker, quote non-identifier names, append `.optional()`. -/
def convertProps (s : JVal) (entries : List (String × JVal)) (required : JVal)
    (h : ∀ kv ∈ entries, jsize kv.2 < jsize s ∧ jad kv.2 ≤ jad s) (refs : List String) :
    Except String (List String × List String) :=
  match entries with
  | [] => .ok ([], refs)
  | (key, value) :: rest =>
      match convertJsonSchemaToZod value refs with
      | .ok (propS, refs1) =>
          match requiredIncludes required key with
          | .ok isReq =>
              let pname := if isValidIdent key then key else "\"" ++ key ++ "\""
              let field := pname ++ ": " ++ propS ++ (if isReq then "" else ".optional()")
              match convertProps s rest required
                  (fun kv hkv => h kv (List.mem_cons_of_mem _ hkv)) refs1 with
              | .ok (fs, refs2) => .ok (field :: fs, refs2)
              | .error e => .error e
          | .error e => .error e
      | .error e => .error e
termination_by (jad s, 2 * jsize s, entries.length)
decreasing_by
  · have hb := h (key, value) (List.mem_cons_self _ _)
    simp only at hb
    exact lex3_of_le_lt hb.2 (by omega)
  · exact lex3_of_le_le_lt le_rfl le_rfl (by simp [List.length_cons])

end

/-! ### Operation template generation -/

/-- `haystack.includes(needle)` on strings (substring containment). -/
def strIncludes (hay sub : String) : Bool :=
  (hay.toList.tails).any (fun t => sub.toList.isPrefixOf t)

/-- `Object.keys(v)` for truthy `v`. -/
def keysOf (v : JVal) : List String :=
  (jsFields v).map Prod.fst

/-- `Object.values(v)`; throws on `null`/`undefined`. -/
def valuesOf : JVal → Except String (List JVal)
  | .undef => .error "TypeError: Object.values called on null or undefined"
  | .jnull => .error "TypeError: Object.values called on null or undefined"
  | v => .ok ((jsFields v).map Prod.snd)

/-- The result of schema generation for a template part: the validator
expression text and its import statements (interface `SchemaResult`). -/
structure SchemaResult where
  schema : String
  imports : List String
deriving Repr, DecidableEq

/-- `import { <Name>Schema } from "@/schemas/<Name>";` -/
def importLine (name : String) : String :=
  "import \x7b " ++ name ++ "Schema \x7d from \"@/schemas/" ++ name ++ "\";"

/-- The own enumerable properties of `Object.prototype` visible through
plain-object bracket lookup: on a plain object literal, `o[k]` for these
keys returns an inherited function (or, for `__proto__`, the prototype
object), which is truthy. -/
def protoKeys : List String :=
  ["constructor", "hasOwnProperty", "isPrototypeOf", "propertyIsEnumerable",
   "toLocaleString", "toString", "valueOf", "__defineGetter__", "__defineSetter__",
   "__lookupGetter__", "__lookupSetter__", "__proto__"]

/-- Truthiness of `schemas[schemaName]` for the name→symbol record: an
own key's value string decides by emptiness, and a missing own key
still hits `Object.prototype`'s methods, which are truthy. -/
def registeredTruthy (schemas : List (String × String)) (name : String) : Bool :=
  match schemas.lookup name with
  | some v => !v.isEmpty
  | none => protoKeys.contains name

/-- `convertSchemaWithImports`: a top-level `$ref` to a registered
schema short-circuits to the symbol plus one import; otherwise the
schema is compiled with a fresh reference set and imports are emitted
for the collected references that are registered. -/
def cswiTopRef (schema : JVal) (schemas : List (String × String)) :
    Except String (Option SchemaResult) :=
  if truthy (jsGet schema "$ref") then
    match jsGet schema "$ref" with
    | .str r =>
        let schemaName := lastSegment r
        if registeredTruthy schemas schemaName then
          .ok (some (⟨schemaName ++ "Schema", [importLine schemaName]⟩ : SchemaResult))
        else .ok none
    | _ => .error "TypeError: schema.$ref.split is not a function"
  else .ok none

def convertSchemaWithImports (schema : JVal) (schemas : List (String × String)) :
    Except String SchemaResult :=
  match cswiTopRef schema schemas with
  | .error e => .error e
  | .ok (some res) => .ok res
  | .ok none => do
      let (zodSchema, referencedSchemas) ← convertJsonSchemaToZod schema []
      .ok ⟨zodSchema, (referencedSchemas.filter (registeredTruthy schemas)).map importLine⟩

/-- The media-type preference shared by the input and output sides:
`content["application/json"] || content[contentTypes[0]!]` (an empty
key list indexes with the string `"undefined"`). -/
def chosenContent (content : JVal) : JVal :=
  let contentTypes := keysOf content
  let jsonContent := jsGet content "application/json"
  if truthy jsonContent then jsonContent else
    (match contentTypes with
     | [] => jsGet content "undefined"
     | k :: _ => jsGet content k)

/-- `generateInputSchema`: request-body selection with the
`application/json` preference; emits `z.never()` when the operation has
no usable body. -/
def generateInputSchema (operation : JVal) (schemas : List (String × String)) :
    Except String SchemaResult :=
  let requestBody := jsGet operation "requestBody"
  if !truthy requestBody || !truthy (jsGet requestBody "content") then
    .ok ⟨"z.never()", []⟩
  else
    let chosen := chosenContent (jsGet requestBody "content")
    if !truthy chosen || !truthy (jsGet chosen "schema") then
      .ok ⟨"z.never()", []⟩
    else
      convertSchemaWithImports (jsGet chosen "schema") schemas

/-- `p.in === "query"`; throws when `p` is nullish (member access). -/
def paramIsQuery (p : JVal) : Except String Bool :=
  match p with
  | .undef => .error "TypeError: cannot read properties of undefined (reading 'in')"
  | .jnull => .error "TypeError: cannot read properties of null (reading 'in')"
  | _ => .ok (match jsGet p "in" with | .str s => s == "query" | _ => false)

/-- `operation.parameters?.filter(p => p.in === "query")` over an array. -/
def filterQueryParams : List JVal → Except String (List JVal)
  | [] => .ok []
  | p :: rest => do
      let b ← paramIsQuery p
      let others ← filterQueryParams rest
      .ok (if b then p :: others else others)

/-- One field of the generated query object: the parameter name
(quoted unless a bare identifier), its compiled schema, and the
optional marker unless the parameter is required.  Note: the source
calls `convertJsonSchemaToZod(param.schema)` *without* the collected
reference set, so references found in query parameter schemas are
dropped (we compile with a throwaway set and discard it). -/
def queryField (p : JVal) : Except String String := do
  let isRequired := truthy (jsGet p "required")
  let (paramSchema, _) ← convertJsonSchemaToZod (jsGet p "schema") []
  let nameStr := jsToString (jsGet p "name")
  let propertyName := if isValidIdent nameStr then nameStr else "\"" ++ nameStr ++ "\""
  .ok (propertyName ++ ": " ++ paramSchema ++ (if isRequired then "" else ".optional()"))

def queryFields : List JVal → Except String (List String)
  | [] => .ok []
  | p :: rest => do
      let f ← queryField p
      let fs ← queryFields rest
      .ok (f :: fs)

/-- `generateQuerySchema`: builds the query validator object; its
`imports` list is the literal `[]` of the source (both return sites). -/
def generateQuerySchema (operation : JVal) : Except String SchemaResult := do
  let queryParams ←
    match jsGet operation "parameters" with
    | .undef => .ok []     -- `?.` short-circuits, then `|| []`
    | .jnull => .ok []
    | .arr xs => filterQueryParams xs
    | _ => .error "TypeError: operation.parameters.filter is not a function"
  if queryParams.isEmpty then
    .ok ⟨"z.object(\x7b\x7d)", []⟩
  else do
    let fields ← queryFields queryParams
    .ok ⟨"z.object(\x7b " ++ String.intercalate ", " fields ++ " \x7d)", []⟩

/-- `r.description?.toLowerCase().includes("success")`; throws when
`r` is nullish or its `description` is a non-nullish non-string. -/
def responseDescSuccess (r : JVal) : Except String Bool :=
  match r with
  | .undef => .error "TypeError: cannot read properties of undefined (reading 'description')"
  | .jnull => .error "TypeError: cannot read properties of null (reading 'description')"
  | _ =>
      match jsGet r "description" with
      | .undef => .ok false
      | .jnull => .ok false
      | .str d => .ok (strIncludes (toLowerStr d) "success")
      | _ => .error "TypeError: description.toLowerCase is not a function"

/-- `Object.values(responses).find(r => ...)`: first match or `undefined`. -/
def findSuccessResponse : List JVal → Except String (Option JVal)
  | [] => .ok none
  | r :: rest => do
      let b ← responseDescSuccess r
      if b then .ok (some r) else findSuccessResponse rest

/-- The `successResponse` selection of `generateOutputSchema`:
`responses["200"] || responses["201"] || responses["202"] ||
Object.values(responses).find(success-description)`. -/
def selectSuccessResponse (responses : JVal) : Except String JVal :=
  match responses with
  | .undef => .error "TypeError: cannot read properties of undefined (reading '200')"
  | .jnull => .error "TypeError: cannot read properties of null (reading '200')"
  | _ =>
      if truthy (jsGet responses "200") then .ok (jsGet responses "200")
      else if truthy (jsGet responses "201") then .ok (jsGet responses "201")
      else if truthy (jsGet responses "202") then .ok (jsGet responses "202")
      else do
        let vals ← valuesOf responses
        match ← findSuccessResponse vals with
        | some r => .ok r
        | none => .ok JVal.undef

/-- `generateOutputSchema`: response selection, then the same
media-type preference as the input side. -/
def generateOutputSchema (operation : JVal) (schemas : List (String × String)) :
    Except String SchemaResult := do
  let successResponse ← selectSuccessResponse (jsGet operation "responses")
  if !truthy successResponse || !truthy (jsGet successResponse "content") then
    .ok ⟨"z.never()", []⟩
  else
    let chosen := chosenContent (jsGet successResponse "content")
    if !truthy chosen || !truthy (jsGet chosen "schema") then
      .ok ⟨"z.never()", []⟩
    else
      convertSchemaWithImports (jsGet chosen "schema") schemas

/-- `path.replace(/^\/+/, "")`. -/
def stripLeadingSlashes (cs : List Char) : List Char :=
  cs.dropWhile (· == '/')

/-- `path.replace(/\/+$/, "")`: remove the trailing run of slashes. -/
def stripTrailingSlashes : List Char → List Char
  | [] => []
  | c :: rest =>
      match stripTrailingSlashes rest with
      | [] => if c == '/' then [] else [c]
      | r => c :: r

/-- `path.replace(/\/+/g, "/")`: collapse every run of slashes to one. -/
def collapseSlashes : List Char → List Char
  | [] => []
  | [c] => [c]
  | c1 :: c2 :: rest =>
      if c1 == '/' && c2 == '/' then collapseSlashes (c2 :: rest)
      else c1 :: collapseSlashes (c2 :: rest)

/-- `generateFilePath`: clean the URL path, substitute `root` when
empty, then append `/<lowercased method>.ts`. -/
def generateFilePath (path method : String) : String :=
  let cleanPath :=
    String.mk (collapseSlashes (stripTrailingSlashes (stripLeadingSlashes path.toList)))
  let cleanPath := if cleanPath.isEmpty then "root" else cleanPath
  cleanPath ++ "/" ++ toLowerStr method ++ ".ts"

/-- `isValidHttpMethod`. -/
def isValidHttpMethod (method : String) : Bool :=
  ["get", "post", "put", "delete", "patch", "head", "options"].contains (toLowerStr method)

/-- First-seen dedup:
`filter((imp, index, arr) => arr.indexOf(imp) === index)`. -/
def dedupFirstSeen : List String → List String :=
  go []
where
  go (seen : List String) : List String → List String
    | [] => []
    | x :: xs => if x ∈ seen then go seen xs else x :: go (seen ++ [x]) xs

/-- The import list assembled by `generateTemplate`: input imports,
then query imports, then output imports, first-seen de-duplicated
(lines 568-581 of the source).  The emitted file text interpolates
this list and the three schema expressions into a fixed template. -/
def templateAllImports (operation : JVal) (schemas : List (String × String)) :
    Except String (List String) := do
  let inputSchemaResult ← generateInputSchema operation schemas
  let querySchemaResult ← generateQuerySchema operation
  let outputSchemaResult ← generateOutputSchema operation schemas
  .ok (dedupFirstSeen
    (inputSchemaResult.imports ++ querySchemaResult.imports ++ outputSchemaResult.imports))

/-- The import list of one generated named-schema file
(`extractAndWriteSchemas`, lines 221-224): every collected reference
except the schema's own name, one import statement each (the source
then joins them with newlines). -/
def schemaFileImports (schemaName : String) (referencedSchemas : List String) : List String :=
  (referencedSchemas.filter (fun r => r != schemaName)).map importLine

/-! ### The render contract of a generated template

A generated template's `render` function parses the data bag with the
input validator inside `try`/`catch` — a failure yields `undefined` as
the input (the absent-input marker) — and then parses the data bag
with the query validator directly, letting its failure escape.  We
model a validator as a parse function and `z.never()` as the validator
that rejects every value (zod semantics of `z.never().parse`). -/

def renderTemplate (parseInput parseQuery : JVal → Except Unit JVal) (data : JVal) :
    Except Unit (JVal × JVal) :=
  let input := match parseInput data with | .ok v => v | .error _ => JVal.undef
  match parseQuery data with
  | .ok q => .ok (input, q)
  | .error e => .error e

/-- `z.never().parse` rejects every input. -/
def zodNeverParse : JVal → Except Unit JVal := fun _ => .error ()

/-! ### Characterization of the compiler branch by branch

Proof-free restatements of the loop helpers (the `h` arguments of the
mutual definitions are termination bounds only), plus one lemma per
branch of `convertJsonSchemaToZod` used to reason about and evaluate
the compiler. -/

/-- `isArr v` iff `Array.isArray(v)`. -/
def isArr : JVal → Bool
  | .arr _ => true
  | _ => false

def compileSeq : List JVal → List String → Except String (List String × List String)
  | [], refs => .ok ([], refs)
  | b :: rest, refs =>
      match convertJsonSchemaToZod b refs with
      | .ok (z, refs1) =>
          match compileSeq rest refs1 with
          | .ok (zs, refs2) => .ok (z :: zs, refs2)
          | .error e => .error e
      | .error e => .error e

def compileVariants (s : JVal) : List JVal → List String → Except String (List String × List String)
  | [], refs => .ok ([], refs)
  | t :: rest, refs =>
      match convertJsonSchemaToZod (jsSet s "type" t) refs with
      | .ok (z, refs1) =>
          match compileVariants s rest refs1 with
          | .ok (zs, refs2) => .ok (z :: zs, refs2)
          | .error e => .error e
      | .error e => .error e

def compileProps (entries : List (String × JVal)) (required : JVal) (refs : List String) :
    Except String (List String × List String) :=
  match entries with
  | [] => .ok ([], refs)
  | (key, value) :: rest =>
      match convertJsonSchemaToZod value refs with
      | .ok (propS, refs1) =>
          match requiredIncludes required key with
          | .ok isReq =>
              let pname := if isValidIdent key then key else "\"" ++ key ++ "\""
              let field := pname ++ ": " ++ propS ++ (if isReq then "" else ".optional()")
              match compileProps rest required refs1 with
              | .ok (fs, refs2) => .ok (field :: fs, refs2)
              | .error e => .error e
          | .error e => .error e
      | .error e => .error e

theorem convertSeq_eq {s : JVal} (xs : List JVal) (h : ∀ b ∈ xs, jsize b < jsize s ∧ jad b ≤ jad s)
    (refs : List String) : convertSeq s xs h refs = compileSeq xs refs := by
  induction xs generalizing refs with
  | nil => rw [convertSeq, compileSeq]
  | cons b rest ih =>
      rw [convertSeq, compileSeq]
      rcases convertJsonSchemaToZod b refs with e | ⟨z, refs1⟩
      · rfl
      · simp only
        rw [ih]

theorem convertTypes_eq {s : JVal} (ts' : List JVal)
    (h : ∀ t ∈ ts', jsize (jsSet s "type" t) < jsize s ∧ jad (jsSet s "type" t) ≤ jad s)
    (refs : List String) : convertTypes s ts' h refs = compileVariants s ts' refs := by
  induction ts' generalizing refs with
  | nil => rw [convertTypes, compileVariants]
  | cons t rest ih =>
      rw [convertTypes, compileVariants]
      rcases convertJsonSchemaToZod (jsSet s "type" t) refs with e | ⟨z, refs1⟩
      · rfl
      · simp only
        rw [ih]

theorem convertProps_eq {s : JVal} (entries : List (String × JVal)) (required : JVal)
    (h : ∀ kv ∈ entries, jsize kv.2 < jsize s ∧ jad kv.2 ≤ jad s)
    (refs : List String) : convertProps s entries required h refs = compileProps entries required refs := by
  induction entries generalizing refs with
  | nil => rw [convertProps, compileProps]
  | cons kv rest ih =>
      obtain ⟨key, value⟩ := kv
      rw [convertProps, compileProps]
      rcases convertJsonSchemaToZod value refs with e | ⟨z, refs1⟩
      · rfl
      · simp only
        rcases requiredIncludes required key with e | isReq
        · rfl
        · simp only
          rw [ih]

/-- A non-object, non-array input (including `null`, `undefined` and
every primitive) compiles to `z.any()`. -/
theorem convert_not_object {s : JVal} (h : isObjectType s = false) (refs : List String) :
    convertJsonSchemaToZod s refs = .ok ("z.any()", refs) := by
  rw [convertJsonSchemaToZod, h]
  simp

/-- A truthy string `$ref` short-circuits: the trailing path segment
becomes `<Name>Schema` and is recorded in the reference set; no other
field of the node is consulted (the result depends only on `r` and
`refs`). -/
theorem convert_ref {s : JVal} {r : String} (hobj : isObjectType s = true)
    (href : jsGet s "$ref" = .str r) (hne : r ≠ "") (refs : List String) :
    convertJsonSchemaToZod s refs =
      .ok (lastSegment r ++ "Schema", addRef refs (lastSegment r)) := by
  rw [convertJsonSchemaToZod, hobj]
  have ht : truthy (jsGet s "$ref") = true := by
    have h0 : r.isEmpty = false := by
      cases h : r.isEmpty
      · rfl
      · exact absurd ((String.isEmpty_iff r).mp h) hne
    rw [href]; simp [truthy, h0]
  rw [if_pos rfl, if_pos ht, href]

/-- `handleTypeUnion`'s final formatting: a single compiled variant is
returned bare, several are joined as a union. -/
def unionFmt (parts : List String) : String :=
  match parts with
  | [p] => p
  | ps => "z.union([" ++ String.intercalate ", " ps ++ "])"

/-- The tail of `handleObjectSchema`: assemble the object expression
and apply the `additionalProperties` policy. -/
def objectTail (s : JVal) (fields : List String) (refs' : List String) :
    Except String (String × List String) :=
  let base := "z.object(\x7b " ++ String.intercalate ", " fields ++ " \x7d)"
  if isExactly (jsGet s "additionalProperties") true then .ok (base ++ ".passthrough()", refs')
  else if isExactly (jsGet s "additionalProperties") false then .ok (base ++ ".strict()", refs')
  else if (truthy (jsGet s "additionalProperties") && isObjectType (jsGet s "additionalProperties")) then
    (convertJsonSchemaToZod (jsGet s "additionalProperties") refs').map
      (fun p => (base ++ ".catchall(" ++ p.1 ++ ")", p.2))
  else .ok (base, refs')

/-- `type: [..., "null", ...]` with exactly one non-null member:
compile the node with the single type substituted, wrap `.nullable()`. -/
theorem convert_nullable_single {s : JVal} {ts : List JVal} {t : JVal}
    (hobj : isObjectType s = true) (hnoref : truthy (jsGet s "$ref") = false)
    (htype : jsGet s "type" = .arr ts) (hnull : ts.any isNullStr = true)
    (hnn : ts.filter (fun t => !isNullStr t) = [t]) (refs : List String) :
    convertJsonSchemaToZod s refs =
      (convertJsonSchemaToZod (jsSet s "type" t) refs).map
        (fun p => (p.1 ++ ".nullable()", p.2)) := by
  rw [convertJsonSchemaToZod, hobj]
  rw [if_pos rfl, if_neg (by rw [hnoref]; exact Bool.false_ne_true)]
  split
  · rename_i ts' htype'
    rw [htype] at htype'
    injection htype' with h
    subst h
    rw [if_pos hnull]
    split
    · rename_i t' hnn'
      rw [hnn] at hnn'
      injection hnn' with h1 h2
      subst h1
      rcases convertJsonSchemaToZod (jsSet s "type" t) refs with e | ⟨b, r⟩ <;>
        simp [Except.map]
    · rename_i hnn'
      rw [hnn] at hnn'
      cases hnn'
    · rename_i t1 t2 rest hnn'
      rw [hnn] at hnn'
      injection hnn' with h1 h2
      cases h2
  · rename_i htype'
    exact (htype' ts htype).elim

/-- `type: ["null"]` (no non-null member): the literal-null validator. -/
theorem convert_nullable_none {s : JVal} {ts : List JVal}
    (hobj : isObjectType s = true) (hnoref : truthy (jsGet s "$ref") = false)
    (htype : jsGet s "type" = .arr ts) (hnull : ts.any isNullStr = true)
    (hnn : ts.filter (fun t => !isNullStr t) = []) (refs : List String) :
    convertJsonSchemaToZod s refs = .ok ("z.null()", refs) := by
  rw [convertJsonSchemaToZod, hobj]
  rw [if_pos rfl, if_neg (by rw [hnoref]; exact Bool.false_ne_true)]
  split
  · rename_i ts' htype'
    rw [htype] at htype'
    injection htype' with h
    subst h
    rw [if_pos hnull]
    split
    · rename_i t' hnn'
      rw [hnn] at hnn'
      cases hnn'
    · rfl
    · rename_i t1 t2 rest hnn'
      rw [hnn] at hnn'
      cases hnn'
  · rename_i htype'
    exact (htype' ts htype).elim

/-- `type` array containing `"null"` and two or more other members:
compile each variant by substituting the single type, join as a union,
wrap `.nullable()`. -/
theorem convert_nullable_multi {s : JVal} {ts : List JVal} {t1 t2 : JVal} {rest : List JVal}
    (hobj : isObjectType s = true) (hnoref : truthy (jsGet s "$ref") = false)
    (htype : jsGet s "type" = .arr ts) (hnull : ts.any isNullStr = true)
    (hnn : ts.filter (fun t => !isNullStr t) = t1 :: t2 :: rest) (refs : List String) :
    convertJsonSchemaToZod s refs =
      (compileVariants s (t1 :: t2 :: rest) refs).map
        (fun p => (unionFmt p.1 ++ ".nullable()", p.2)) := by
  rw [convertJsonSchemaToZod, hobj]
  rw [if_pos rfl, if_neg (by rw [hnoref]; exact Bool.false_ne_true)]
  split
  · rename_i ts' htype'
    rw [htype] at htype'
    injection htype' with h
    subst h
    rw [if_pos hnull]
    split
    · rename_i t' hnn'
      rw [hnn] at hnn'
      injection hnn' with h1 h2
      cases h2
    · rename_i hnn'
      rw [hnn] at hnn'
      cases hnn'
    · rename_i t1' t2' rest' hnn'
      rw [hnn] at hnn'
      injection hnn' with h1 h2
      injection h2 with h2 h3
      subst h1; subst h2; subst h3
      rw [convertTypes_eq]
      rcases compileVariants s (t1 :: t2 :: rest) refs with e | ⟨parts, r⟩
      · rfl
      · simp only [Except.map]
        rcases parts with _ | ⟨p, _ | ps⟩ <;> simp [unionFmt]
  · rename_i htype'
    exact (htype' ts htype).elim

/-- `type` array without `"null"`: the same union logic, unwrapped. -/
theorem convert_type_union {s : JVal} {ts : List JVal}
    (hobj : isObjectType s = true) (hnoref : truthy (jsGet s "$ref") = false)
    (htype : jsGet s "type" = .arr ts) (hnull : ts.any isNullStr = false)
    (refs : List String) :
    convertJsonSchemaToZod s refs =
      (compileVariants s ts refs).map (fun p => (unionFmt p.1, p.2)) := by
  rw [convertJsonSchemaToZod, hobj]
  rw [if_pos rfl, if_neg (by rw [hnoref]; exact Bool.false_ne_true)]
  split
  · rename_i ts' htype'
    rw [htype] at htype'
    injection htype' with h
    subst h
    rw [if_neg (by rw [hnull]; exact Bool.false_ne_true)]
    rw [convertTypes_eq]
    rcases compileVariants s ts refs with e | ⟨parts, r⟩
    · rfl
    · simp only [Except.map]
      rcases parts with _ | ⟨p, _ | ps⟩ <;> simp [unionFmt]
  · rename_i htype'
    exact (htype' ts htype).elim

/-- `oneOf` (checked before `anyOf`/`allOf`): compile every branch in
order and join as a union. -/
theorem convert_oneOf {s : JVal} {xs : List JVal}
    (hobj : isObjectType s = true) (hnoref : truthy (jsGet s "$ref") = false)
    (hnotarr : isArr (jsGet s "type") = false)
    (honeof : jsGet s "oneOf" = .arr xs) (refs : List String) :
    convertJsonSchemaToZod s refs =
      (compileSeq xs refs).map
        (fun p => ("z.union([" ++ String.intercalate ", " p.1 ++ "])", p.2)) := by
  rw [convertJsonSchemaToZod, hobj]
  rw [if_pos rfl, if_neg (by rw [hnoref]; exact Bool.false_ne_true)]
  split
  · rename_i ts' htype'
    rw [htype'] at hnotarr
    simp [isArr] at hnotarr
  · have ht : truthy (jsGet s "oneOf") = true := by rw [honeof]; rfl
    rw [if_pos (by rw [ht]; rfl), if_pos ht]
    split
    · rename_i xs' honeof'
      rw [honeof] at honeof'
      injection honeof' with h
      subst h
      rw [convertSeq_eq]
      rcases compileSeq xs refs with e | ⟨parts, r⟩ <;> simp [Except.map]
    · rename_i honeof'
      exact (honeof' xs honeof).elim

/-- `anyOf` (when `oneOf` is falsy): identical union treatment. -/
theorem convert_anyOf {s : JVal} {xs : List JVal}
    (hobj : isObjectType s = true) (hnoref : truthy (jsGet s "$ref") = false)
    (hnotarr : isArr (jsGet s "type") = false)
    (hno1 : truthy (jsGet s "oneOf") = false)
    (hanyof : jsGet s "anyOf" = .arr xs) (refs : List String) :
    convertJsonSchemaToZod s refs =
      (compileSeq xs refs).map
        (fun p => ("z.union([" ++ String.intercalate ", " p.1 ++ "])", p.2)) := by
  rw [convertJsonSchemaToZod, hobj]
  rw [if_pos rfl, if_neg (by rw [hnoref]; exact Bool.false_ne_true)]
  split
  · rename_i ts' htype'
    rw [htype'] at hnotarr
    simp [isArr] at hnotarr
  · have ht : truthy (jsGet s "anyOf") = true := by rw [hanyof]; rfl
    rw [if_pos (by rw [hno1, ht]; rfl)]
    rw [if_neg (by rw [hno1]; exact Bool.false_ne_true), if_pos ht]
    split
    · rename_i xs' hanyof'
      rw [hanyof] at hanyof'
      injection hanyof' with h
      subst h
      rw [convertSeq_eq]
      rcases compileSeq xs refs with e | ⟨parts, r⟩ <;> simp [Except.map]
    · rename_i hanyof'
      exact (hanyof' xs hanyof).elim

/-- `allOf` (when `oneOf` and `anyOf` are falsy): merge the branches
into one synthetic node and compile that node in a single pass. -/
theorem convert_allOf {s : JVal} {bs : List JVal}
    (hobj : isObjectType s = true) (hnoref : truthy (jsGet s "$ref") = false)
    (hnotarr : isArr (jsGet s "type") = false)
    (hno1 : truthy (jsGet s "oneOf") = false)
    (hno2 : truthy (jsGet s "anyOf") = false)
    (hallof : jsGet s "allOf" = .arr bs) (refs : List String) :
    convertJsonSchemaToZod s refs =
      (mergeAllOfSchemas bs).bind (fun merged => convertJsonSchemaToZod merged refs) := by
  rw [convertJsonSchemaToZod, hobj]
  rw [if_pos rfl, if_neg (by rw [hnoref]; exact Bool.false_ne_true)]
  split
  · rename_i ts' htype'
    rw [htype'] at hnotarr
    simp [isArr] at hnotarr
  · have ht : truthy (jsGet s "allOf") = true := by rw [hallof]; rfl
    rw [if_pos (by rw [hno1, hno2, ht]; rfl)]
    rw [if_neg (by rw [hno1]; exact Bool.false_ne_true)]
    rw [if_neg (by rw [hno2]; exact Bool.false_ne_true), if_pos ht]
    split
    · rename_i bs' hallof'
      rw [hallof] at hallof'
      injection hallof' with h
      subst h
      rcases hm : mergeAllOfSchemas bs with e | m <;> simp [Except.bind, hm]
    · rename_i hallof'
      exact (hallof' bs hallof).elim

/-- Type names the scalar switch recognizes. -/
def recognizedTypeName : JVal → Bool
  | .str "string" => true
  | .str "number" => true
  | .str "integer" => true
  | .str "boolean" => true
  | .str "array" => true
  | .str "object" => true
  | _ => false

/-- Common context for the scalar `switch (schema.type)` region: the
node is an object/array, `$ref` is falsy, `type` is not an array, and
no combinator key is truthy. -/
def scalarRegion (s : JVal) : Prop :=
  isObjectType s = true ∧ truthy (jsGet s "$ref") = false ∧
    isArr (jsGet s "type") = false ∧
    (truthy (jsGet s "oneOf") || truthy (jsGet s "anyOf") || truthy (jsGet s "allOf")) = false

theorem convert_switch {s : JVal} (h : scalarRegion s) (refs : List String) :
    convertJsonSchemaToZod s refs =
      (match jsGet s "type" with
       | .str "string" => (handleStringSchema s).map (fun z => (z, refs))
       | .str "number" => (handleNumberSchema s).map (fun z => (z, refs))
       | .str "integer" => (handleNumberSchema s).map (fun z => (z, refs))
       | .str "boolean" => .ok ("z.boolean()", refs)
       | .str "array" =>
           ((if truthy (jsGet s "items") then
               convertJsonSchemaToZod (jsGet s "items") refs
             else .ok ("z.any()", refs)).map
            (fun p => ("z.array(" ++ p.1 ++ ")" ++
              (if isDef (jsGet s "minItems") then
                ".min(" ++ jsToString (jsGet s "minItems") ++ ")" else "") ++
              (if isDef (jsGet s "maxItems") then
                ".max(" ++ jsToString (jsGet s "maxItems") ++ ")" else "") ++
              (if truthy (jsGet s "uniqueItems") then uniqueItemsSuffix else ""), p.2)))
       | .str "object" =>
           if truthy (jsGet s "properties") then
             (compileProps (jsFields (jsGet s "properties")) (jsGet s "required") refs).bind
               (fun p => objectTail s p.1 p.2)
           else .ok ("z.object(\x7b\x7d)", refs)
       | _ => .ok ("z.any()", refs)) := by
  obtain ⟨hobj, hnoref, hnotarr, hcomb⟩ := h
  rw [convertJsonSchemaToZod, hobj]
  rw [if_pos rfl, if_neg (by rw [hnoref]; exact Bool.false_ne_true)]
  split
  · rename_i ts' htype'
    rw [htype'] at hnotarr
    simp [isArr] at hnotarr
  · rw [if_neg (by rw [hcomb]; exact Bool.false_ne_true)]
    rcases htv : jsGet s "type" with _ | _ | b | n | tn | xs | fs
    case arr => rw [htv] at hnotarr
    case str =>
      by_cases h1 : tn = "string"
      · subst h1
        rcases handleStringSchema s with e | z <;> simp [Except.map]
      · by_cases h2 : tn = "number"
        · subst h2
          rcases handleNumberSchema s with e | z <;> simp [Except.map]
        · by_cases h3 : tn = "integer"
          · subst h3
            rcases handleNumberSchema s with e | z <;> simp [Except.map]
          · by_cases h4 : tn = "boolean"
            · subst h4; rfl
            · by_cases h5 : tn = "array"
              · subst h5
                by_cases hti : truthy (jsGet s "items") = true
                · rw [dif_pos hti, if_pos hti]
                  rcases convertJsonSchemaToZod (jsGet s "items") refs with e | ⟨z, r⟩ <;>
                    simp [Except.map]
                · rw [dif_neg hti, if_neg hti]
                  simp [Except.map]
              · by_cases h6 : tn = "object"
                · subst h6
                  by_cases hp : truthy (jsGet s "properties") = true
                  · rw [dif_pos hp, if_pos hp]
                    rw [convertProps_eq]
                    rcases compileProps (jsFields (jsGet s "properties")) (jsGet s "required") refs
                      with e | ⟨fields, r⟩
                    · simp [Except.bind]
                    · simp only [Except.bind]
                      rw [objectTail]
                      split
                      · rfl
                      · split
                        · rfl
                        · split
                          · rename_i hap
                            rcases convertJsonSchemaToZod (jsGet s "additionalProperties") r
                              with e | ⟨z, r2⟩ <;> simp [Except.map]
                          · rfl
                  · rw [dif_neg hp, if_neg hp]
                    rfl
                · simp only
                  split
                  all_goals
                    first
                      | rfl
                      | (rename_i heq
                         injection heq with h0
                         first
                           | exact absurd h0 h1
                           | exact absurd h0 h2
                           | exact absurd h0 h3
                           | exact absurd h0 h4
                           | exact absurd h0 h5
                           | exact absurd h0 h6)
    all_goals rfl

/-! ### Inputs on which the compiler provably does not throw

`SafeB` is a syntactic well-formedness condition mirroring the
compiler's traversal: wherever the source would call a method on a
field value (`$ref.split`, `enum.map`/`.filter`, `oneOf.map`,
`allOf.reduce`, spreads of `required`, `required.includes`), `SafeB`
demands the shape that makes the call succeed. -/

/-- `typeof v === "string"`. -/
def isStr : JVal → Bool
  | .str _ => true
  | _ => false

/-- Shapes of `required` on which `requiredIncludes` cannot throw. -/
def requiredOk : JVal → Bool
  | .undef => true
  | .jnull => true
  | .str _ => true
  | .arr _ => true
  | _ => false

theorem two_mul_succ_lt {a b : Nat} (h : a < b) : 2 * a + 1 < 2 * b := by omega

theorem two_mul_succ_lt_succ {a b : Nat} (h : a < b) : 2 * a + 1 < 2 * b + 1 := by omega

def SafeB (schema : JVal) : Bool :=
  if isObjectType schema then
    if truthy (jsGet schema "$ref") then isStr (jsGet schema "$ref")
    else
      match htype : jsGet schema "type" with
      | .arr ts =>
          (if ts.any isNullStr then ts.filter (fun t => !isNullStr t) else ts).attach.all
            (fun t => SafeB (jsSet schema "type" t.1))
      | _ =>
        if truthy (jsGet schema "oneOf") || truthy (jsGet schema "anyOf") ||
            truthy (jsGet schema "allOf") then
          if truthy (jsGet schema "oneOf") then
            match honeof : jsGet schema "oneOf" with
            | .arr xs => xs.attach.all (fun b => SafeB b.1)
            | _ => false
          else if truthy (jsGet schema "anyOf") then
            match hanyof : jsGet schema "anyOf" with
            | .arr xs => xs.attach.all (fun b => SafeB b.1)
            | _ => false
          else if truthy (jsGet schema "allOf") then
            match hallof : jsGet schema "allOf" with
            | .arr bs =>
                match hm : mergeAllOfSchemas bs with
                | .ok merged => SafeB merged
                | .error _ => false
            | _ => false
          else true
        else
          match jsGet schema "type" with
          | .str "string" => !truthy (jsGet schema "enum") || isArr (jsGet schema "enum")
          | .str "number" => !truthy (jsGet schema "enum") || isArr (jsGet schema "enum")
          | .str "integer" => !truthy (jsGet schema "enum") || isArr (jsGet schema "enum")
          | .str "array" =>
              if hti : truthy (jsGet schema "items") = true then SafeB (jsGet schema "items")
              else true
          | .str "object" =>
              if hprops : truthy (jsGet schema "properties") = true then
                (jsFields (jsGet schema "properties")).attach.all
                  (fun kv => SafeB kv.1.2) &&
                requiredOk (jsGet schema "required") &&
                (if hap : (truthy (jsGet schema "additionalProperties") &&
                    isObjectType (jsGet schema "additionalProperties")) = true then
                  SafeB (jsGet schema "additionalProperties")
                else true)
              else true
          | _ => true
  else true
termination_by (jad schema, 2 * jsize schema + 1, 0)
decreasing_by
  · rename_i ht
    have hmem : t.1 ∈ ts := by
      have := t.2
      split at this
      · exact List.mem_of_mem_filter this
      · exact this
    have hb := jsSet_type_bounds htype hmem
    exact lex3_of_le_lt hb.2 (two_mul_succ_lt_succ hb.1)
  · have hbb := field_elem_bounds honeof b.2
    exact lex3_of_le_lt hbb.1 (two_mul_succ_lt_succ hbb.2)
  · have hbb := field_elem_bounds hanyof b.2
    exact lex3_of_le_lt hbb.1 (two_mul_succ_lt_succ hbb.2)
  · exact lex3_of_lt (jad_allOf_lt hallof hm)
  · have h1 := jad_jsGet_le schema "items"
    have h2 := jsize_jsGet_lt (by decide) (truthy_ne_undef hti)
    exact lex3_of_le_lt h1 (two_mul_succ_lt_succ h2)
  · have hbb := props_entry_bounds rfl (truthy_ne_undef hprops) kv.2
    exact lex3_of_le_lt hbb.1 (two_mul_succ_lt_succ hbb.2)
  · have hap1 : truthy (jsGet schema "additionalProperties") = true := by
      have := hap
      simp only [Bool.and_eq_true] at this
      exact this.1
    have h1 := jad_jsGet_le schema "additionalProperties"
    have h2 := jsize_jsGet_lt (by decide) (truthy_ne_undef hap1)
    exact lex3_of_le_lt h1 (by omega)

/-- `Except` success test (used to state "does not throw"). -/
def exOk {ε α : Type} : Except ε α → Bool
  | .ok _ => true
  | .error _ => false

theorem exOk_error {ε α : Type} (e : ε) : exOk (Except.error e : Except ε α) = false := rfl

theorem handleStringSchema_safe {s : JVal}
    (h : (!truthy (jsGet s "enum") || isArr (jsGet s "enum")) = true) :
    exOk (handleStringSchema s) = true := by
  rw [handleStringSchema]
  by_cases he : truthy (jsGet s "enum") = true
  · rw [if_pos he]
    rw [he] at h
    simp only [Bool.not_true, Bool.false_or] at h
    rcases hv : jsGet s "enum" with _ | _ | _ | _ | _ | xs | _ <;> rw [hv] at h <;>
      simp [isArr] at h
    rfl
  · rw [if_neg he]
    rfl

theorem handleNumberSchema_safe {s : JVal}
    (h : (!truthy (jsGet s "enum") || isArr (jsGet s "enum")) = true) :
    exOk (handleNumberSchema s) = true := by
  rw [handleNumberSchema]
  by_cases he : truthy (jsGet s "enum") = true
  · rw [if_pos he]
    rw [he] at h
    simp only [Bool.not_true, Bool.false_or] at h
    rcases hv : jsGet s "enum" with _ | _ | _ | _ | _ | xs | _ <;> rw [hv] at h <;>
      simp [isArr] at h
    by_cases hn : ((xs.filter isNum).isEmpty) = true
    · simp [hn]
      rfl
    · simp [hn]
      rfl
  · rw [if_neg he]
    rfl

theorem requiredIncludes_ok {req : JVal} (h : requiredOk req = true) (key : String) :
    exOk (requiredIncludes req key) = true := by
  cases req <;> simp [requiredOk] at h <;> rfl

theorem attach_all_forall' {α : Type} {l : List α} {f : {x // x ∈ l} → Bool}
    (h : (l.attach.all f) = true) : ∀ (x : α) (hx : x ∈ l), f ⟨x, hx⟩ = true := by
  intro x hx
  exact (List.all_eq_true.mp h) ⟨x, hx⟩ (List.mem_attach _ _)

mutual

/-- On `SafeB` inputs the compiler does not throw. -/
theorem convert_safe (s : JVal) (refs : List String) (hs : SafeB s = true) :
    exOk (convertJsonSchemaToZod s refs) = true := by
  by_cases hobj : isObjectType s = true
  case neg =>
    have hobj' : isObjectType s = false := by revert hobj; cases isObjectType s <;> simp
    rw [convert_not_object hobj' refs]
    rfl
  case pos =>
  rw [SafeB, if_pos hobj] at hs
  by_cases href : truthy (jsGet s "$ref") = true
  case pos =>
    rw [if_pos href] at hs
    rcases hr : jsGet s "$ref" with _ | _ | b | n | r | xs | fs <;> rw [hr] at hs <;>
      simp [isStr] at hs
    have hne : r ≠ "" := by
      rw [hr] at href
      intro hemp
      subst hemp
      exact absurd href (by decide)
    rw [convert_ref hobj hr hne refs]
    rfl
  case neg =>
  rw [if_neg href] at hs
  have hnoref : truthy (jsGet s "$ref") = false := by
    revert href; cases truthy (jsGet s "$ref") <;> simp
  split at hs
  · rename_i ts htype
    by_cases hnull : ts.any isNullStr = true
    · rw [if_pos hnull] at hs
      rcases hnn : ts.filter (fun t => !isNullStr t) with _ | ⟨t, _ | ⟨t2, rest⟩⟩
      · rw [convert_nullable_none hobj hnoref htype hnull hnn refs]
        rfl
      · rw [convert_nullable_single hobj hnoref htype hnull hnn refs]
        rw [hnn] at hs
        have hsafe : SafeB (jsSet s "type" t) = true :=
          attach_all_forall' hs t (List.mem_cons_self _ _)
        have hdec : jsize (jsSet s "type" t) < jsize s ∧ jad (jsSet s "type" t) ≤ jad s :=
          jsSet_type_bounds htype (List.mem_of_mem_filter (p := fun t => !isNullStr t)
            (by rw [hnn]; exact List.mem_cons_self _ _))
        have hok := convert_safe (jsSet s "type" t) refs hsafe
        rcases hc : convertJsonSchemaToZod (jsSet s "type" t) refs with e | p
        · rw [hc] at hok; exact absurd hok (by simp [exOk])
        · rfl
      · rw [convert_nullable_multi hobj hnoref htype hnull hnn refs]
        rw [hnn] at hs
        have hb : ∀ x ∈ t :: t2 :: rest,
            jsize (jsSet s "type" x) < jsize s ∧ jad (jsSet s "type" x) ≤ jad s := by
          intro x hx
          exact jsSet_type_bounds htype
            (List.mem_of_mem_filter (p := fun t => !isNullStr t) (by rw [hnn]; exact hx))
        have hok := variants_safe s (t :: t2 :: rest) hb refs (attach_all_forall' hs)
        rcases hc : compileVariants s (t :: t2 :: rest) refs with e | p
        · rw [hc] at hok; exact absurd hok (by simp [exOk])
        · rfl
    · have hnull' : ts.any isNullStr = false := by
        revert hnull; cases ts.any isNullStr <;> simp
      rw [if_neg hnull] at hs
      rw [convert_type_union hobj hnoref htype hnull' refs]
      have hb : ∀ x ∈ ts,
          jsize (jsSet s "type" x) < jsize s ∧ jad (jsSet s "type" x) ≤ jad s := by
        intro x hx
        exact jsSet_type_bounds htype hx
      have hok := variants_safe s ts hb refs (attach_all_forall' hs)
      rcases hc : compileVariants s ts refs with e | p
      · rw [hc] at hok; exact absurd hok (by simp [exOk])
      · rfl
  · rename_i htypeF
    have hnotarr : isArr (jsGet s "type") = false := by
      rcases htv : jsGet s "type" with _ | _ | _ | _ | _ | xs | _ <;> simp [isArr]
      exact (htypeF xs htv).elim
    by_cases hcomb : (truthy (jsGet s "oneOf") || truthy (jsGet s "anyOf") ||
        truthy (jsGet s "allOf")) = true
    · rw [if_pos hcomb] at hs
      by_cases h1 : truthy (jsGet s "oneOf") = true
      · rw [if_pos h1] at hs
        split at hs
        · rename_i xs honeof
          rw [convert_oneOf hobj hnoref hnotarr honeof refs]
          have hb : ∀ b ∈ xs, jsize b < jsize s ∧ jad b ≤ jad s := by
            intro b hbmem
            have hfb := field_elem_bounds honeof hbmem
            exact ⟨hfb.2, hfb.1⟩
          have hok := seq_safe s xs hb refs (attach_all_forall' hs)
          rcases hc : compileSeq xs refs with e | p
          · rw [hc] at hok; exact absurd hok (by simp [exOk])
          · rfl
        · cases hs
      · rw [if_neg h1] at hs
        have h1' : truthy (jsGet s "oneOf") = false := by
          revert h1; cases truthy (jsGet s "oneOf") <;> simp
        by_cases h2 : truthy (jsGet s "anyOf") = true
        · rw [if_pos h2] at hs
          split at hs
          · rename_i xs hanyof
            rw [convert_anyOf hobj hnoref hnotarr h1' hanyof refs]
            have hb : ∀ b ∈ xs, jsize b < jsize s ∧ jad b ≤ jad s := by
              intro b hbmem
              have hfb := field_elem_bounds hanyof hbmem
              exact ⟨hfb.2, hfb.1⟩
            have hok := seq_safe s xs hb refs (attach_all_forall' hs)
            rcases hc : compileSeq xs refs with e | p
            · rw [hc] at hok; exact absurd hok (by simp [exOk])
            · rfl
          · cases hs
        · rw [if_neg h2] at hs
          have h2' : truthy (jsGet s "anyOf") = false := by
            revert h2; cases truthy (jsGet s "anyOf") <;> simp
          by_cases h3 : truthy (jsGet s "allOf") = true
          · rw [if_pos h3] at hs
            split at hs
            · rename_i bs hallof
              split at hs
              · rename_i merged hm
                rw [convert_allOf hobj hnoref hnotarr h1' h2' hallof refs, hm]
                simp only [Except.bind]
                have hdec : jad merged < jad s := jad_allOf_lt hallof hm
                exact convert_safe merged refs hs
              · cases hs
            · cases hs
          · exfalso
            rw [h1', h2'] at hcomb
            revert h3
            revert hcomb
            cases truthy (jsGet s "allOf") <;> simp
    · have hcomb' : (truthy (jsGet s "oneOf") || truthy (jsGet s "anyOf") ||
          truthy (jsGet s "allOf")) = false := by
        revert hcomb
        cases (truthy (jsGet s "oneOf") || truthy (jsGet s "anyOf") ||
          truthy (jsGet s "allOf")) <;> simp
      rw [if_neg hcomb] at hs
      rw [convert_switch ⟨hobj, hnoref, hnotarr, hcomb'⟩ refs]
      rcases htv : jsGet s "type" with _ | _ | b | n | tn | xs | fs
      case neg.arr => exact (htypeF xs htv).elim
      case neg.str =>
        rw [htv] at hs
        by_cases ht1 : tn = "string"
        · subst ht1
          have hok := handleStringSchema_safe (s := s) hs
          rcases hc : handleStringSchema s with e | z
          · rw [hc] at hok; exact absurd hok (by simp [exOk])
          · rfl
        · by_cases ht2 : tn = "number"
          · subst ht2
            have hok := handleNumberSchema_safe (s := s) hs
            rcases hc : handleNumberSchema s with e | z
            · rw [hc] at hok; exact absurd hok (by simp [exOk])
            · rfl
          · by_cases ht3 : tn = "integer"
            · subst ht3
              have hok := handleNumberSchema_safe (s := s) hs
              rcases hc : handleNumberSchema s with e | z
              · rw [hc] at hok; exact absurd hok (by simp [exOk])
              · rfl
            · by_cases ht4 : tn = "boolean"
              · subst ht4; rfl
              · by_cases ht5 : tn = "array"
                · subst ht5
                  by_cases hti : truthy (jsGet s "items") = true
                  · rw [dif_pos hti] at hs
                    rw [if_pos hti]
                    have hdec : jsize (jsGet s "items") < jsize s :=
                      jsize_jsGet_lt (by decide) (truthy_ne_undef hti)
                    have hok := convert_safe (jsGet s "items") refs hs
                    rcases hc : convertJsonSchemaToZod (jsGet s "items") refs with e | p
                    · rw [hc] at hok; exact absurd hok (by simp [exOk])
                    · rfl
                  · rw [if_neg hti]
                    rfl
                · by_cases ht6 : tn = "object"
                  · subst ht6
                    by_cases hp : truthy (jsGet s "properties") = true
                    · rw [dif_pos hp] at hs
                      rw [if_pos hp]
                      simp only [Bool.and_eq_true] at hs
                      obtain ⟨⟨hfields, hreq⟩, hap⟩ := hs
                      have hb : ∀ kv ∈ jsFields (jsGet s "properties"),
                          jsize kv.2 < jsize s ∧ jad kv.2 ≤ jad s := by
                        intro kv hkv
                        have hpb := props_entry_bounds rfl (truthy_ne_undef hp) hkv
                        exact ⟨hpb.2, hpb.1⟩
                      have hok := props_safe s (jsFields (jsGet s "properties"))
                        (jsGet s "required") hb refs (attach_all_forall' hfields) hreq
                      rcases hc : compileProps (jsFields (jsGet s "properties"))
                          (jsGet s "required") refs with e | p
                      · rw [hc] at hok; exact absurd hok (by simp [exOk])
                      · simp only [Except.bind]
                        rw [objectTail]
                        split
                        · rfl
                        · split
                          · rfl
                          · split
                            · rename_i hcond
                              have hcond' : truthy (jsGet s "additionalProperties") = true ∧
                                  isObjectType (jsGet s "additionalProperties") = true := by
                                simpa [Bool.and_eq_true] using hcond
                              rw [dif_pos hcond'] at hap
                              have hdec : jsize (jsGet s "additionalProperties") < jsize s :=
                                jsize_jsGet_lt (by decide) (truthy_ne_undef hcond'.1)
                              have hok2 := convert_safe (jsGet s "additionalProperties") p.2 hap
                              rcases hc2 : convertJsonSchemaToZod
                                  (jsGet s "additionalProperties") p.2 with e | q
                              · rw [hc2] at hok2; exact absurd hok2 (by simp [exOk])
                              · rfl
                            · rfl
                    · rw [if_neg hp]
                      rfl
                  · split
                    all_goals
                      first
                        | rfl
                        | (rename_i heq
                           injection heq with h0
                           first
                             | exact absurd h0 ht1
                             | exact absurd h0 ht2
                             | exact absurd h0 ht3
                             | exact absurd h0 ht4
                             | exact absurd h0 ht5
                             | exact absurd h0 ht6)
      all_goals rfl
termination_by (jad s, 2 * jsize s + 1, 0)
decreasing_by
  all_goals simp_wf
  all_goals
    first
      | exact lex3_of_le_lt le_rfl (by omega)
      | exact lex3_of_le_lt hdec.2 (two_mul_succ_lt_succ hdec.1)
      | exact lex3_of_lt hdec
      | exact lex3_of_le_lt (jad_jsGet_le s "items") (two_mul_succ_lt_succ hdec)
      | exact lex3_of_le_lt (jad_jsGet_le s "additionalProperties") (two_mul_succ_lt_succ hdec)

theorem seq_safe : ∀ (s : JVal) (xs : List JVal)
    (_ : ∀ b ∈ xs, jsize b < jsize s ∧ jad b ≤ jad s) (refs : List String)
    (_ : ∀ b ∈ xs, SafeB b = true), exOk (compileSeq xs refs) = true
  | s, [], _, refs, _ => by rw [compileSeq]; rfl
  | s, b :: rest, hb, refs, hall => by
      rw [compileSeq]
      have h1 := convert_safe b refs (hall b (List.mem_cons_self _ _))
      rcases hc : convertJsonSchemaToZod b refs with e | ⟨z, refs1⟩
      · rw [hc] at h1; exact absurd h1 (by simp [exOk])
      · simp only
        have h2 := seq_safe s rest (fun b' hb' => hb b' (List.mem_cons_of_mem _ hb'))
          refs1 (fun b' hb' => hall b' (List.mem_cons_of_mem _ hb'))
        rcases hc2 : compileSeq rest refs1 with e | ⟨zs, refs2⟩
        · rw [hc2] at h2; exact absurd h2 (by simp [exOk])
        · rfl
termination_by s xs => (jad s, 2 * jsize s, xs.length)
decreasing_by
  all_goals simp_wf
  all_goals
    first
      | (have hbb := hb b (List.mem_cons_self _ _)
         exact lex3_of_le_lt hbb.2 (two_mul_succ_lt hbb.1))
      | exact lex3_of_le_le_lt le_rfl le_rfl (by simp [List.length_cons])

theorem variants_safe : ∀ (s : JVal) (ts' : List JVal)
    (_ : ∀ t ∈ ts', jsize (jsSet s "type" t) < jsize s ∧ jad (jsSet s "type" t) ≤ jad s)
    (refs : List String)
    (_ : ∀ t ∈ ts', SafeB (jsSet s "type" t) = true),
    exOk (compileVariants s ts' refs) = true
  | s, [], _, refs, _ => by rw [compileVariants]; rfl
  | s, t :: rest, hb, refs, hall => by
      rw [compileVariants]
      have h1 := convert_safe (jsSet s "type" t) refs (hall t (List.mem_cons_self _ _))
      rcases hc : convertJsonSchemaToZod (jsSet s "type" t) refs with e | ⟨z, refs1⟩
      · rw [hc] at h1; exact absurd h1 (by simp [exOk])
      · simp only
        have h2 := variants_safe s rest (fun t' ht' => hb t' (List.mem_cons_of_mem _ ht'))
          refs1 (fun t' ht' => hall t' (List.mem_cons_of_mem _ ht'))
        rcases hc2 : compileVariants s rest refs1 with e | ⟨zs, refs2⟩
        · rw [hc2] at h2; exact absurd h2 (by simp [exOk])
        · rfl
termination_by s ts' => (jad s, 2 * jsize s, ts'.length)
decreasing_by
  all_goals simp_wf
  all_goals
    first
      | (have hbb := hb t (List.mem_cons_self _ _)
         exact lex3_of_le_lt hbb.2 (two_mul_succ_lt hbb.1))
      | exact lex3_of_le_le_lt le_rfl le_rfl (by simp [List.length_cons])

theorem props_safe : ∀ (s : JVal) (entries : List (String × JVal)) (required : JVal)
    (_ : ∀ kv ∈ entries, jsize kv.2 < jsize s ∧ jad kv.2 ≤ jad s) (refs : List String)
    (_ : ∀ kv ∈ entries, SafeB kv.2 = true) (_ : requiredOk required = true),
    exOk (compileProps entries required refs) = true
  | s, [], required, _, refs, _, _ => by rw [compileProps]; rfl
  | s, (key, value) :: rest, required, hb, refs, hall, hreq => by
      rw [compileProps]
      have h1 := convert_safe value refs (hall (key, value) (List.mem_cons_self _ _))
      rcases hc : convertJsonSchemaToZod value refs with e | ⟨z, refs1⟩
      · rw [hc] at h1; exact absurd h1 (by simp [exOk])
      · simp only
        have hri := requiredIncludes_ok hreq key
        rcases hc1 : requiredIncludes required key with e | isReq
        · rw [hc1] at hri; exact absurd hri (by simp [exOk])
        · simp only
          have h2 := props_safe s rest required (fun kv hkv => hb kv (List.mem_cons_of_mem _ hkv))
            refs1 (fun kv hkv => hall kv (List.mem_cons_of_mem _ hkv)) hreq
          rcases hc2 : compileProps rest required refs1 with e | ⟨fs, refs2⟩
          · rw [hc2] at h2; exact absurd h2 (by simp [exOk])
          · rfl
termination_by s entries => (jad s, 2 * jsize s, entries.length)
decreasing_by
  all_goals simp_wf
  all_goals
    first
      | (have hbb := hb (key, value) (List.mem_cons_self _ _)
         exact lex3_of_le_lt hbb.2 (two_mul_succ_lt hbb.1))
      | exact lex3_of_le_le_lt le_rfl le_rfl (by simp [List.length_cons])

end

/-! ### Segment characterization of the path cleaning

The cleaned path (leading/trailing slashes stripped, runs collapsed)
equals the non-empty `/`-separated segments of the original path,
re-joined with single slashes. -/

/-- Join segments with single slashes. -/
def joinNE : List (List Char) → List Char
  | [] => []
  | [seg] => seg
  | seg :: rest => seg ++ '/' :: joinNE rest

/-- The non-empty segments of a character list. -/
def pathSegs (cs : List Char) : List (List Char) :=
  (splitOnSlash cs).filter (fun seg => !seg.isEmpty)

theorem splitOnSlash_ne_nil (cs : List Char) : splitOnSlash cs ≠ [] := by
  cases cs with
  | nil => simp [splitOnSlash]
  | cons c rest =>
      rw [splitOnSlash]
      rcases h : splitOnSlash rest with _ | ⟨seg, segs⟩
      · simp
      · by_cases hc : c == '/' <;> simp [hc]

theorem splitOnSlash_slash (rest : List Char) :
    splitOnSlash ('/' :: rest) = [] :: splitOnSlash rest := by
  rw [splitOnSlash]
  rcases h : splitOnSlash rest with _ | ⟨seg, segs⟩
  · exact absurd h (splitOnSlash_ne_nil rest)
  · simp

theorem splitOnSlash_cons {c : Char} (hc : ¬c = '/') (rest : List Char) :
    ∃ seg segs, splitOnSlash rest = seg :: segs ∧
      splitOnSlash (c :: rest) = (c :: seg) :: segs := by
  rcases h : splitOnSlash rest with _ | ⟨seg, segs⟩
  · exact absurd h (splitOnSlash_ne_nil rest)
  · refine ⟨seg, segs, rfl, ?_⟩
    rw [splitOnSlash, h]
    simp [hc]

theorem pathSegs_stripLeading (cs : List Char) :
    pathSegs (stripLeadingSlashes cs) = pathSegs cs := by
  induction cs with
  | nil => rfl
  | cons c rest ih =>
      by_cases hc : c = '/'
      · subst hc
        have h1 : stripLeadingSlashes ('/' :: rest) = stripLeadingSlashes rest := by
          simp [stripLeadingSlashes, List.dropWhile]
        rw [h1, ih]
        have h2 := splitOnSlash_slash rest
        simp [pathSegs, h2, List.isEmpty]
      · have h1 : stripLeadingSlashes (c :: rest) = c :: rest := by
          have hc2 : (c == '/') = false := by simp [hc]
          simp [stripLeadingSlashes, List.dropWhile, hc2]
        rw [h1]

theorem stripTrailing_head (cs : List Char) (h : stripTrailingSlashes cs ≠ []) :
    ∃ c rest rest', cs = c :: rest ∧ stripTrailingSlashes cs = c :: rest' := by
  cases cs with
  | nil => rw [stripTrailingSlashes] at h; exact absurd rfl h
  | cons c rest =>
      rw [stripTrailingSlashes]
      rw [stripTrailingSlashes] at h
      rcases hr : stripTrailingSlashes rest with _ | ⟨d, r⟩
      · rw [hr] at h
        by_cases hc : c == '/'
        · rw [if_pos hc] at h; exact absurd rfl h
        · exact ⟨c, rest, [], rfl, by rw [if_neg hc]⟩
      · rw [hr] at h
        exact ⟨c, rest, d :: r, rfl, rfl⟩

theorem splitOnSlash_append_slash (xs : List Char) :
    splitOnSlash (xs ++ ['/']) = splitOnSlash xs ++ [[]] := by
  induction xs with
  | nil => rfl
  | cons c rest ih =>
      obtain ⟨s, ss, hs⟩ : ∃ s ss, splitOnSlash rest = s :: ss := by
        rcases h : splitOnSlash rest with _ | ⟨s, ss⟩
        · exact absurd h (splitOnSlash_ne_nil rest)
        · exact ⟨s, ss, rfl⟩
      have hs2 : splitOnSlash (rest ++ ['/']) = s :: (ss ++ [[]]) := by
        rw [ih, hs]; rfl
      show splitOnSlash (c :: (rest ++ ['/'])) = _
      rw [splitOnSlash, hs2, splitOnSlash, hs]
      by_cases hc : c == '/' <;> simp [hc]

theorem stripTrailing_decomp (cs : List Char) :
    ∃ k, cs = stripTrailingSlashes cs ++ List.replicate k '/' := by
  induction cs with
  | nil => exact ⟨0, rfl⟩
  | cons c rest ih =>
      obtain ⟨k, hk⟩ := ih
      rw [stripTrailingSlashes]
      rcases hr : stripTrailingSlashes rest with _ | ⟨d, r⟩
      · rw [hr] at hk
        by_cases hc : c == '/'
        · refine ⟨k + 1, ?_⟩
          rw [if_pos hc]
          have : c = '/' := by simpa using hc
          subst this
          simp only [List.nil_append]
          rw [List.replicate_succ]
          exact congrArg _ hk
        · exact ⟨k, by rw [if_neg hc]; simpa using congrArg (c :: ·) hk⟩
      · rw [hr] at hk
        exact ⟨k, by simpa using congrArg (c :: ·) hk⟩

theorem pathSegs_append_replicate (xs : List Char) (k : Nat) :
    pathSegs (xs ++ List.replicate k '/') = pathSegs xs := by
  induction k with
  | zero => simp
  | succ n ih =>
      have h1 : xs ++ List.replicate (n + 1) '/' = (xs ++ List.replicate n '/') ++ ['/'] := by
        rw [List.append_assoc]
        congr 1
        rw [List.replicate_succ']
  -- replicate (n+1) = replicate n ++ ['/']
      rw [h1, pathSegs, splitOnSlash_append_slash, List.filter_append, ← pathSegs, ih]
      simp [List.isEmpty]

theorem pathSegs_stripTrailing (cs : List Char) :
    pathSegs (stripTrailingSlashes cs) = pathSegs cs := by
  obtain ⟨k, hk⟩ := stripTrailing_decomp cs
  conv_rhs => rw [hk]
  rw [pathSegs_append_replicate]

/-- After `stripTrailingSlashes` the last character is never a slash. -/
theorem stripTrailing_no_slash (cs : List Char) :
    (stripTrailingSlashes cs).getLast? ≠ some '/' := by
  induction cs with
  | nil => rw [stripTrailingSlashes]; simp
  | cons c rest ih =>
      rw [stripTrailingSlashes]
      rcases hr : stripTrailingSlashes rest with _ | ⟨d, r⟩
      · by_cases hc : c == '/'
        · rw [if_pos hc]; simp
        · rw [if_neg hc]
          simp only [List.getLast?_singleton]
          intro h
          injection h with h
          subst h
          simp at hc
      · rw [hr] at ih
        rw [List.getLast?_cons_cons]
        exact ih

theorem pathSegs_slash (rest : List Char) : pathSegs ('/' :: rest) = pathSegs rest := by
  have h := splitOnSlash_slash rest
  simp [pathSegs, h, List.isEmpty]

theorem joinNE_cons_cons (c : Char) (s : List Char) (L : List (List Char)) :
    joinNE ((c :: s) :: L) = c :: joinNE (s :: L) := by
  cases L with
  | nil => rfl
  | cons x xs => simp [joinNE]

theorem pathSegs_ne_nil (cs : List Char) (hne : cs ≠ [])
    (hlast : cs.getLast? ≠ some '/') : pathSegs cs ≠ [] := by
  induction cs with
  | nil => exact absurd rfl hne
  | cons c rest ih =>
      by_cases hc : c = '/'
      · subst hc
        cases rest with
        | nil => simp at hlast
        | cons d r =>
            rw [pathSegs_slash]
            rw [List.getLast?_cons_cons] at hlast
            exact ih (by simp) hlast
      · obtain ⟨seg, segs, _, h2⟩ := splitOnSlash_cons hc rest
        rw [pathSegs, h2]
        simp [List.isEmpty]

theorem pathSegs_cons {c : Char} (hc : ¬c = '/') {rest : List Char}
    {seg : List Char} {segs : List (List Char)} (h : splitOnSlash rest = seg :: segs) :
    pathSegs (c :: rest) = (c :: seg) :: segs.filter (fun s => !s.isEmpty) := by
  obtain ⟨seg2, segs2, h1, h2⟩ := splitOnSlash_cons hc rest
  rw [h] at h1
  injection h1 with ha hb
  subst ha; subst hb
  rw [pathSegs, h2]
  simp [List.filter_cons, List.isEmpty]

theorem collapseSlashes_eq_joinNE (cs : List Char) (hlast : cs.getLast? ≠ some '/') :
    collapseSlashes cs =
      (if cs.head? = some '/' then ['/'] else []) ++ joinNE (pathSegs cs) := by
  induction cs using collapseSlashes.induct with
  | case1 => rfl
  | case2 c =>
      have hc : ¬c = '/' := by
        intro h; subst h; simp at hlast
      have h1 : splitOnSlash ([] : List Char) = [] :: [] := rfl
      have h2 := pathSegs_cons hc h1
      rw [collapseSlashes, h2]
      simp [joinNE, hc]
  | case3 c1 c2 rest hcc ih =>
      have hc1 : c1 = '/' := by
        have := hcc; simp [Bool.and_eq_true] at this; exact this.1
      have hc2 : c2 = '/' := by
        have := hcc; simp [Bool.and_eq_true] at this; exact this.2
      subst hc1; subst hc2
      rw [List.getLast?_cons_cons] at hlast
      rw [collapseSlashes, if_pos hcc, ih hlast]
      simp [pathSegs_slash]
  | case4 c1 c2 rest hcc ih =>
      rw [List.getLast?_cons_cons] at hlast
      have ih2 := ih hlast
      rw [collapseSlashes, if_neg hcc]
      by_cases hc1 : c1 = '/'
      · subst hc1
        have hc2 : ¬c2 = '/' := by
          intro h; subst h; simp at hcc
        rw [ih2]
        have hh : (c2 :: rest).head? = some c2 := rfl
        rw [hh, if_neg (by simpa using hc2)]
        rw [pathSegs_slash]
        simp
      · have hh1 : (c1 :: c2 :: rest).head? = some c1 := rfl
        rw [hh1, if_neg (by simpa using hc1)]
        simp only [List.nil_append]
        by_cases hc2 : c2 = '/'
        · subst hc2
          rw [ih2]
          have hh2 : (('/' : Char) :: rest).head? = some '/' := rfl
          rw [hh2, if_pos rfl]
          rw [pathSegs_slash]
          have hsl := splitOnSlash_slash rest
          have h2 := pathSegs_cons hc1 hsl
          rw [h2]
          have hrest : rest ≠ [] := by
            intro h; subst h; simp at hlast
          have hlast2 : rest.getLast? ≠ some '/' := by
            cases rest with
            | nil => exact absurd rfl hrest
            | cons d r =>
                rw [List.getLast?_cons_cons] at hlast
                exact hlast
          have hsegs : pathSegs rest ≠ [] := pathSegs_ne_nil rest hrest hlast2
          rcases hps : pathSegs rest with _ | ⟨x, xs⟩
          · exact absurd hps hsegs
          · rw [pathSegs] at hps
            rw [hps]
            simp [joinNE, joinNE_cons_cons]
        · obtain ⟨seg', segs', h1', h2'⟩ := splitOnSlash_cons hc2 rest
          have hA := pathSegs_cons hc1 h2'
          have hB := pathSegs_cons hc2 h1'
          rw [ih2]
          have hh2 : (c2 :: rest).head? = some c2 := rfl
          rw [hh2, if_neg (by simpa using hc2)]
          rw [hA, hB]
          simp only [List.nil_append]
          exact (joinNE_cons_cons c1 (c2 :: seg') _).symm

theorem stripLeading_head_ne (cs : List Char) :
    (stripLeadingSlashes cs).head? ≠ some '/' := by
  induction cs with
  | nil => simp [stripLeadingSlashes]
  | cons c rest ih =>
      by_cases hc : c = '/'
      · subst hc
        have h1 : stripLeadingSlashes ('/' :: rest) = stripLeadingSlashes rest := by
          simp [stripLeadingSlashes, List.dropWhile]
        rw [h1]; exact ih
      · have h1 : stripLeadingSlashes (c :: rest) = c :: rest := by
          have hc2 : (c == '/') = false := by simp [hc]
          simp [stripLeadingSlashes, List.dropWhile, hc2]
        rw [h1]
        simp [hc]

theorem joinNE_cons_ne_nil (x : List Char) (xs : List (List Char)) (hx : x ≠ []) :
    joinNE (x :: xs) ≠ [] := by
  cases xs with
  | nil => exact hx
  | cons y ys =>
      simp [joinNE]

/-- The cleaned file path is the slash-join of the non-empty path segments
(`root` when there are none), followed by `/<lowercased method>.ts`. -/
theorem generateFilePath_eq (path method : String) :
    generateFilePath path method =
      (if pathSegs path.toList = [] then "root"
       else String.mk (joinNE (pathSegs path.toList))) ++ "/" ++ toLowerStr method ++ ".ts" := by
  have hlast := stripTrailing_no_slash (stripLeadingSlashes path.toList)
  have hhead : (stripTrailingSlashes (stripLeadingSlashes path.toList)).head? ≠ some '/' := by
    by_cases hd : stripTrailingSlashes (stripLeadingSlashes path.toList) = []
    · rw [hd]; simp
    · obtain ⟨c, rest, rest', heq, heq2⟩ := stripTrailing_head _ hd
      rw [heq2]
      intro hcon
      injection hcon with hcon
      subst hcon
      have := stripLeading_head_ne path.toList
      rw [heq] at this
      exact this rfl
  have hcol := collapseSlashes_eq_joinNE _ hlast
  rw [if_neg hhead] at hcol
  have hsegs : pathSegs (stripTrailingSlashes (stripLeadingSlashes path.toList)) =
      pathSegs path.toList := by
    rw [pathSegs_stripTrailing, pathSegs_stripLeading]
  rw [hsegs] at hcol
  simp only [List.nil_append] at hcol
  show (if (String.mk (collapseSlashes (stripTrailingSlashes
          (stripLeadingSlashes path.toList)))).isEmpty then "root"
        else String.mk (collapseSlashes (stripTrailingSlashes
          (stripLeadingSlashes path.toList)))) ++ "/" ++ toLowerStr method ++ ".ts" = _
  rw [hcol]
  by_cases hps : pathSegs path.toList = []
  · rw [hps, if_pos rfl]
    have : (String.mk (joinNE [])).isEmpty = true := rfl
    rw [this]
    simp
  · rw [if_neg hps]
    rcases hx : pathSegs path.toList with _ | ⟨x, xs⟩
    · exact absurd hx hps
    · have hxne : x ≠ [] := by
        have hmem : x ∈ pathSegs path.toList := by rw [hx]; exact List.mem_cons_self _ _
        rw [pathSegs] at hmem
        have := (List.mem_filter.mp hmem).2
        intro hcon
        subst hcon
        simp [List.isEmpty] at this
      have hjne : joinNE (x :: xs) ≠ [] := joinNE_cons_ne_nil x xs hxne
      have hne : String.mk (joinNE (x :: xs)) ≠ "" := by
        intro hcon
        have hdata : joinNE (x :: xs) = "".data := congrArg String.data hcon
        exact hjne hdata
      have hie : (String.mk (joinNE (x :: xs))).isEmpty = false := by
        cases hb : (String.mk (joinNE (x :: xs))).isEmpty with
        | false => rfl
        | true => exact absurd ((String.isEmpty_iff _).mp hb) hne
      rw [hie]
      simp

/-! ### Per-branch dispatch lemmas for the scalar switch -/

theorem convert_string {s : JVal} (h : scalarRegion s)
    (htype : jsGet s "type" = .str "string") (refs : List String) :
    convertJsonSchemaToZod s refs = (handleStringSchema s).map (fun z => (z, refs)) := by
  rw [convert_switch h refs, htype]
  rfl

theorem convert_number {s : JVal} (h : scalarRegion s)
    (htype : jsGet s "type" = .str "number" ∨ jsGet s "type" = .str "integer")
    (refs : List String) :
    convertJsonSchemaToZod s refs = (handleNumberSchema s).map (fun z => (z, refs)) := by
  rcases htype with htype | htype <;> rw [convert_switch h refs, htype] <;> rfl

theorem convert_object {s : JVal} (h : scalarRegion s)
    (htype : jsGet s "type" = .str "object")
    (hp : truthy (jsGet s "properties") = true) (refs : List String) :
    convertJsonSchemaToZod s refs =
      (compileProps (jsFields (jsGet s "properties")) (jsGet s "required") refs).bind
        (fun p => objectTail s p.1 p.2) := by
  rw [convert_switch h refs, htype]
  simp [hp]

theorem convert_default {s : JVal} (h : scalarRegion s)
    (hrec : recognizedTypeName (jsGet s "type") = false) (refs : List String) :
    convertJsonSchemaToZod s refs = .ok ("z.any()", refs) := by
  obtain ⟨hobj, hnoref, hnotarr, hcomb⟩ := h
  rw [convert_switch ⟨hobj, hnoref, hnotarr, hcomb⟩ refs]
  rcases htv : jsGet s "type" with _ | _ | b | n | tn | xs | fs
  case arr =>
    rw [htv] at hnotarr
  case str =>
    rw [htv] at hrec
    split
    all_goals
      first
        | rfl
        | (rename_i heq
           injection heq with h0
           subst h0
           simp [recognizedTypeName] at hrec)
  all_goals rfl

/-! ### The claims -/

theorem addRef_idem (refs : List String) (n : String) :
    addRef (addRef refs n) n = addRef refs n := by
  unfold addRef
  by_cases h : n ∈ refs
  · simp [h]
  · simp [h]

/-- C1: on a node whose `$ref` is a non-empty string, compilation
short-circuits to the symbol `<Name>Schema` built from the trailing
path segment of the `$ref` string — the result depends on no other
field of the node and never inlines the referenced body — and the name
is added to the reference set as a set insertion, so a second
occurrence of the same name leaves the set unchanged.  (The original
claim spoke of any present `$ref` field; a non-string or empty-string
`$ref` does not take this path, see the counterexample.) -/
theorem claim_C1 (s : JVal) (refs : List String) (r : String)
    (hobj : isObjectType s = true) (href : jsGet s "$ref" = .str r) (hne : r ≠ "") :
    convertJsonSchemaToZod s refs =
        .ok (lastSegment r ++ "Schema", addRef refs (lastSegment r)) ∧
      addRef (addRef refs (lastSegment r)) (lastSegment r) = addRef refs (lastSegment r) :=
  ⟨convert_ref hobj href hne refs, addRef_idem refs (lastSegment r)⟩

theorem claim_C1_witness :
    convertJsonSchemaToZod (.obj [("$ref", .str "#/components/schemas/Foo")]) [] =
        .ok ("FooSchema", ["Foo"]) ∧
      addRef (addRef [] "Foo") "Foo" = addRef [] "Foo" := by
  have h := claim_C1 (.obj [("$ref", .str "#/components/schemas/Foo")]) []
    "#/components/schemas/Foo" rfl rfl (by decide)
  exact ⟨h.1, h.2⟩

/-- C1 fails as stated for a `$ref` field that is present but not a
non-empty string: a numeric `$ref` makes the compiler throw
(`.split` on a non-string), and an empty-string `$ref` is falsy, so
the node falls through to the type switch and compiles to `z.any()`
with nothing recorded in the reference set. -/
theorem claim_C1_counterexample :
    exOk (convertJsonSchemaToZod (.obj [("$ref", .num 5)]) []) = false ∧
    convertJsonSchemaToZod (.obj [("$ref", .str "")]) [] = .ok ("z.any()", []) := by
  constructor
  · rw [convertJsonSchemaToZod]
    rfl
  · exact convert_default (s := .obj [("$ref", .str "")]) ⟨rfl, rfl, rfl, rfl⟩ rfl []

/-- A query parameter whose schema references the registered schema
`Foo` (the shape of C3's divergence). -/
def c3Param : JVal :=
  .obj [("name", .str "userId"), ("in", .str "query"),
        ("schema", .obj [("$ref", .str "#/components/schemas/Foo")])]

def c3Operation : JVal :=
  .obj [("parameters", .arr [c3Param]), ("responses", .obj [])]

def c3Schemas : List (String × String) := [("Foo", "z.object(\x7b\x7d)")]

/-- C3: the claim is false of the code — `generateQuerySchema` returns
the literal empty `imports` list on every successful path (the
references collected while compiling query parameter schemas are
discarded), so a query parameter whose schema is a `$ref` to the
registered schema `Foo` contributes nothing to the template's import
list: the assembled import list for `c3Operation` is empty even though
`Foo` is registered. -/
theorem claim_C3 :
    (∀ (operation : JVal) (r : SchemaResult),
        generateQuerySchema operation = .ok r → r.imports = []) ∧
    registeredTruthy c3Schemas "Foo" = true ∧
    templateAllImports c3Operation c3Schemas = .ok [] := by
  refine ⟨?_, rfl, ?_⟩
  · intro operation r h
    rcases hp : jsGet operation "parameters" with _ | _ | b | n | st | xs | fs <;>
      rw [generateQuerySchema, hp] at h
    case undef =>
      change Except.ok ⟨"z.object(\x7b\x7d)", []⟩ = Except.ok r at h
      injection h with h
      subst h
      rfl
    case jnull =>
      change Except.ok ⟨"z.object(\x7b\x7d)", []⟩ = Except.ok r at h
      injection h with h
      subst h
      rfl
    case arr =>
      change (filterQueryParams xs).bind
        (fun queryParams =>
          if queryParams.isEmpty then
            (Except.ok ⟨"z.object(\x7b\x7d)", []⟩ : Except String SchemaResult)
          else (queryFields queryParams).bind
            (fun fields =>
              Except.ok ⟨"z.object(\x7b " ++ String.intercalate ", " fields ++ " \x7d)", []⟩)) =
        Except.ok r at h
      rcases hfq : filterQueryParams xs with e | qp <;> rw [hfq] at h
      · exact Except.noConfusion (by change Except.error e = Except.ok r at h; exact h)
      · change (if qp.isEmpty then
            (Except.ok ⟨"z.object(\x7b\x7d)", []⟩ : Except String SchemaResult)
          else (queryFields qp).bind
            (fun fields =>
              Except.ok ⟨"z.object(\x7b " ++ String.intercalate ", " fields ++ " \x7d)", []⟩)) =
          Except.ok r at h
        by_cases hqe : qp.isEmpty
        · rw [if_pos hqe] at h
          injection h with h
          subst h
          rfl
        · rw [if_neg hqe] at h
          rcases hqf : queryFields qp with e2 | fields <;> rw [hqf] at h
          · exact Except.noConfusion (by change Except.error e2 = Except.ok r at h; exact h)
          · change Except.ok
              ⟨"z.object(\x7b " ++ String.intercalate ", " fields ++ " \x7d)", []⟩ =
              Except.ok r at h
            injection h with h
            subst h
            rfl
    all_goals
      exact Except.noConfusion
        (by change Except.error "TypeError: operation.parameters.filter is not a function" =
              Except.ok r at h
            exact h)
  · have hc : convertJsonSchemaToZod (jsGet c3Param "schema") [] = .ok ("FooSchema", ["Foo"]) :=
      (convert_ref (s := jsGet c3Param "schema") (r := "#/components/schemas/Foo")
        rfl rfl (by decide) []).trans rfl
    have hf : queryField c3Param = .ok "userId: FooSchema.optional()" := by
      rw [queryField, hc]
      rfl
    have hqs : queryFields [c3Param] = .ok ["userId: FooSchema.optional()"] := by
      rw [queryFields, hf]
      rfl
    have step : generateQuerySchema c3Operation =
        (queryFields [c3Param]).bind
          (fun fields =>
            .ok ⟨"z.object(\x7b " ++ String.intercalate ", " fields ++ " \x7d)", []⟩) := rfl
    have hq : generateQuerySchema c3Operation =
        .ok ⟨"z.object(\x7b userId: FooSchema.optional() \x7d)", []⟩ := by
      rw [step, hqs]
      rfl
    have step2 : templateAllImports c3Operation c3Schemas =
        (generateQuerySchema c3Operation).bind
          (fun q => (generateOutputSchema c3Operation c3Schemas).bind
            (fun o => .ok (dedupFirstSeen (([] : List String) ++ q.imports ++ o.imports)))) :=
      rfl
    rw [step2, hq]
    rfl

theorem claim_C3_witness :
    (⟨"z.object(\x7b\x7d)", []⟩ : SchemaResult).imports = [] :=
  claim_C3.1 (.obj []) _ rfl

/-- C4: the derived file path is the slash-join of the non-empty
segments of the URL path (leading/trailing slashes stripped, repeated
slashes collapsed, braces preserved verbatim, `root` when no segment
remains) followed by `/<lowercased method>.ts` — the code appends the
`.ts` extension the claim's example omits. -/
theorem claim_C4 (path method : String) :
    generateFilePath path method =
      (if pathSegs path.toList = [] then "root"
       else String.mk (joinNE (pathSegs path.toList))) ++ "/" ++ toLowerStr method ++ ".ts" :=
  generateFilePath_eq path method

/-- C4's example path yields `users/\x7buser_id\x7d/profile/get.ts`,
not the claimed `users/\x7buser_id\x7d/profile/get`. -/
theorem claim_C4_counterexample :
    generateFilePath "/users/\x7buser_id\x7d/profile" "GET" =
        "users/\x7buser_id\x7d/profile/get.ts" ∧
      ("users/\x7buser_id\x7d/profile/get.ts" : String) ≠
        "users/\x7buser_id\x7d/profile/get" := by
  constructor
  · rfl
  · decide

/-- C5: an operation with no usable request body — no truthy
`requestBody`, no truthy `content`, a falsy selected media-type entry,
or a selected entry without a truthy `schema` — gets the `z.never()`
input expression with no imports, and a generated template's render
parses the input inside `try`/`catch`, so under the never-validator
any data bag yields the absent-input marker (`undefined`) paired with
the validated query rather than a validation failure. -/
theorem claim_C5 :
    (∀ (op : JVal) (schemas : List (String × String)),
        truthy (jsGet op "requestBody") = false ∨
        truthy (jsGet (jsGet op "requestBody") "content") = false →
        generateInputSchema op schemas = .ok ⟨"z.never()", []⟩) ∧
    (∀ (op : JVal) (schemas : List (String × String)),
        truthy (chosenContent (jsGet (jsGet op "requestBody") "content")) = false ∨
        truthy (jsGet (chosenContent (jsGet (jsGet op "requestBody") "content"))
          "schema") = false →
        generateInputSchema op schemas = .ok ⟨"z.never()", []⟩) ∧
    (∀ (pq : JVal → Except Unit JVal) (data q : JVal), pq data = .ok q →
        renderTemplate zodNeverParse pq data = .ok (.undef, q)) := by
  refine ⟨?_, ?_, ?_⟩
  · intro op schemas h
    rw [generateInputSchema]
    rcases h with h | h <;> simp [h]
  · intro op schemas h
    rw [generateInputSchema]
    rcases h with h | h <;> simp [h]
  · intro pq data q hq
    rw [renderTemplate, hq]
    rfl

theorem claim_C5_witness :
    generateInputSchema (.obj []) [] = .ok ⟨"z.never()", []⟩ ∧
    generateInputSchema (.obj [("requestBody", .obj [("content", .obj [])])]) [] =
        .ok ⟨"z.never()", []⟩ ∧
    generateInputSchema
        (.obj [("requestBody", .obj [("content", .obj [("text/plain", .obj [])])])]) [] =
        .ok ⟨"z.never()", []⟩ ∧
    renderTemplate zodNeverParse (fun _ => .ok (.obj [])) (.num 1) = .ok (.undef, .obj []) :=
  ⟨claim_C5.1 (.obj []) [] (Or.inl rfl),
   claim_C5.2.1 (.obj [("requestBody", .obj [("content", .obj [])])]) [] (Or.inl rfl),
   claim_C5.2.1 (.obj [("requestBody", .obj [("content", .obj [("text/plain", .obj [])])])])
     [] (Or.inr rfl),
   claim_C5.2.2 (fun _ => .ok (.obj [])) (.num 1) (.obj []) rfl⟩

def c6Branch1 : JVal :=
  .obj [("type", .str "object"),
        ("properties", .obj [("a", .obj [("type", .str "string")])]),
        ("required", .arr [.str "a"])]

def c6Branch2 : JVal :=
  .obj [("properties", .obj [("b", .obj [("type", .str "number")])])]

def c6Node : JVal := .obj [("allOf", .arr [c6Branch1, c6Branch2])]

def c6Merged : JVal :=
  .obj [("type", .str "object"),
        ("properties", .obj [("a", .obj [("type", .str "string")]),
                             ("b", .obj [("type", .str "number")])]),
        ("required", .arr [.str "a"])]

/-- C6: in the `allOf` branch (no `$ref`, no array `type`, no
`oneOf`/`anyOf`) the compiler merges all branches into one synthetic
node and compiles it in a single pass, never as a union; the merge
gives later branches' `properties` precedence on key collision and
unions `required` arrays as a set.  A branch supplying
`type: "object"` makes the merged node compile to one object
expression with required/optional markers per the merged required set.
(The claim's own no-`type` example does not: see the counterexample.) -/
theorem claim_C6 :
    (∀ (s : JVal) (bs : List JVal) (refs : List String),
        isObjectType s = true → truthy (jsGet s "$ref") = false →
        isArr (jsGet s "type") = false → truthy (jsGet s "oneOf") = false →
        truthy (jsGet s "anyOf") = false → jsGet s "allOf" = .arr bs →
        convertJsonSchemaToZod s refs =
          (mergeAllOfSchemas bs).bind (fun merged => convertJsonSchemaToZod merged refs)) ∧
    (mergeAllOfSchemas [.obj [("properties", .obj [("a", .obj [("type", .str "string")])])],
        .obj [("properties", .obj [("a", .obj [("type", .str "number")])])]]).map
      (fun m => jsGet (jsGet m "properties") "a") = .ok (.obj [("type", .str "number")]) ∧
    (mergeAllOfSchemas [.obj [("required", .arr [.str "a", .str "b"])],
        .obj [("required", .arr [.str "b", .str "c"])]]).map (fun m => jsGet m "required") =
      .ok (.arr [.str "a", .str "b", .str "c"]) ∧
    mergeAllOfSchemas [c6Branch1, c6Branch2] = .ok c6Merged ∧
    convertJsonSchemaToZod c6Node [] =
      .ok ("z.object(\x7b a: z.string(), b: z.number().optional() \x7d)", []) := by
  refine ⟨fun s bs refs h1 h2 h3 h4 h5 h6 => convert_allOf h1 h2 h3 h4 h5 h6 refs,
    rfl, rfl, rfl, ?_⟩
  have hA : convertJsonSchemaToZod (.obj [("type", .str "string")]) [] =
      .ok ("z.string()", []) := by
    rw [convert_string (s := .obj [("type", .str "string")]) ⟨rfl, rfl, rfl, rfl⟩ rfl []]
    rfl
  have hB : convertJsonSchemaToZod (.obj [("type", .str "number")]) [] =
      .ok ("z.number()", []) := by
    rw [convert_number (s := .obj [("type", .str "number")]) ⟨rfl, rfl, rfl, rfl⟩
      (Or.inl rfl) []]
    rfl
  have hcp : compileProps
      [("a", .obj [("type", .str "string")]), ("b", .obj [("type", .str "number")])]
      (.arr [.str "a"]) [] = .ok (["a: z.string()", "b: z.number().optional()"], []) := by
    simp only [compileProps, hA, hB]
    rfl
  have h6 := convert_allOf (s := c6Node) rfl rfl rfl rfl rfl rfl []
  rw [h6, show mergeAllOfSchemas [c6Branch1, c6Branch2] = .ok c6Merged from rfl]
  change convertJsonSchemaToZod c6Merged [] = _
  rw [convert_object (s := c6Merged) ⟨rfl, rfl, rfl, rfl⟩ rfl rfl []]
  rw [show jsFields (jsGet c6Merged "properties") =
        [("a", .obj [("type", .str "string")]), ("b", .obj [("type", .str "number")])]
      from rfl,
      show jsGet c6Merged "required" = .arr [.str "a"] from rfl, hcp]
  rfl

theorem claim_C6_witness :
    convertJsonSchemaToZod (.obj [("allOf", .arr [])]) [] = .ok ("z.any()", []) := by
  have h := claim_C6.1 (.obj [("allOf", .arr [])]) [] [] rfl rfl rfl rfl rfl rfl
  rw [h, show mergeAllOfSchemas [] = .ok (.obj []) from rfl]
  change convertJsonSchemaToZod (.obj []) [] = _
  exact convert_default (s := .obj []) ⟨rfl, rfl, rfl, rfl⟩ rfl []

def c6PlainBranch1 : JVal :=
  .obj [("properties", .obj [("a", .obj [("type", .str "string")])]),
        ("required", .arr [.str "a"])]

def c6PlainBranch2 : JVal :=
  .obj [("properties", .obj [("b", .obj [("type", .str "number")])])]

def c6PlainMerged : JVal :=
  .obj [("properties", .obj [("a", .obj [("type", .str "string")]),
                             ("b", .obj [("type", .str "number")])]),
        ("required", .arr [.str "a"])]

/-- C6's literal spec example (branches carrying only `properties` and
`required`, no `type`) compiles to `z.any()` — the merged node lacks
`type: "object"`, so the switch's default branch fires and the result
is not an object expression with per-field markers. -/
theorem claim_C6_counterexample :
    convertJsonSchemaToZod (.obj [("allOf", .arr [c6PlainBranch1, c6PlainBranch2])]) [] =
        .ok ("z.any()", []) ∧
      ("z.any()" : String) ≠ "z.object(\x7b a: z.string(), b: z.number().optional() \x7d)" := by
  constructor
  · have h := convert_allOf (s := .obj [("allOf", .arr [c6PlainBranch1, c6PlainBranch2])])
      rfl rfl rfl rfl rfl rfl []
    rw [h, show mergeAllOfSchemas [c6PlainBranch1, c6PlainBranch2] = .ok c6PlainMerged from rfl]
    change convertJsonSchemaToZod c6PlainMerged [] = _
    exact convert_default (s := c6PlainMerged) ⟨rfl, rfl, rfl, rfl⟩ rfl []
  · decide

/-- C7: for an array-valued `type` on a node whose `$ref` is falsy —
the proviso the claim omitted — the four claimed cases hold: one
non-null type plus `"null"` compiles the substituted single type
wrapped `.nullable()`; two or more non-null types compile variant by
variant (substituting `type`, keeping every other field), are joined
as a union in order, then wrapped `.nullable()`; exactly `["null"]`
gives the literal-null validator; and without `"null"` the same union
logic applies unwrapped. -/
theorem claim_C7 :
    (∀ (s : JVal) (ts : List JVal) (t : JVal) (refs : List String),
        isObjectType s = true → truthy (jsGet s "$ref") = false →
        jsGet s "type" = .arr ts → ts.any isNullStr = true →
        ts.filter (fun x => !isNullStr x) = [t] →
        convertJsonSchemaToZod s refs =
          (convertJsonSchemaToZod (jsSet s "type" t) refs).map
            (fun p => (p.1 ++ ".nullable()", p.2))) ∧
    (∀ (s : JVal) (ts : List JVal) (t1 t2 : JVal) (rest : List JVal) (refs : List String),
        isObjectType s = true → truthy (jsGet s "$ref") = false →
        jsGet s "type" = .arr ts → ts.any isNullStr = true →
        ts.filter (fun x => !isNullStr x) = t1 :: t2 :: rest →
        convertJsonSchemaToZod s refs =
          (compileVariants s (t1 :: t2 :: rest) refs).map
            (fun p => (unionFmt p.1 ++ ".nullable()", p.2))) ∧
    (∀ (s : JVal) (ts : List JVal) (refs : List String),
        isObjectType s = true → truthy (jsGet s "$ref") = false →
        jsGet s "type" = .arr ts → ts.any isNullStr = true →
        ts.filter (fun x => !isNullStr x) = [] →
        convertJsonSchemaToZod s refs = .ok ("z.null()", refs)) ∧
    (∀ (s : JVal) (ts : List JVal) (refs : List String),
        isObjectType s = true → truthy (jsGet s "$ref") = false →
        jsGet s "type" = .arr ts → ts.any isNullStr = false →
        convertJsonSchemaToZod s refs =
          (compileVariants s ts refs).map (fun p => (unionFmt p.1, p.2))) :=
  ⟨fun _ _ _ refs h1 h2 h3 h4 h5 => convert_nullable_single h1 h2 h3 h4 h5 refs,
   fun _ _ _ _ _ refs h1 h2 h3 h4 h5 => convert_nullable_multi h1 h2 h3 h4 h5 refs,
   fun _ _ refs h1 h2 h3 h4 h5 => convert_nullable_none h1 h2 h3 h4 h5 refs,
   fun _ _ refs h1 h2 h3 h4 => convert_type_union h1 h2 h3 h4 refs⟩

theorem claim_C7_witness :
    convertJsonSchemaToZod (.obj [("type", .arr [.str "string", .str "null"])]) [] =
      .ok ("z.string().nullable()", []) := by
  have h := claim_C7.1 (.obj [("type", .arr [.str "string", .str "null"])])
    [.str "string", .str "null"] (.str "string") [] rfl rfl rfl rfl rfl
  rw [h, show jsSet (.obj [("type", .arr [.str "string", .str "null"])] : JVal) "type"
        (.str "string") = .obj [("type", .str "string")] from rfl]
  rw [convert_string (s := .obj [("type", .str "string")]) ⟨rfl, rfl, rfl, rfl⟩ rfl []]
  rfl

/-- C7 fails without the `$ref` proviso: a node carrying both a truthy
`$ref` and `type: ["string", "null"]` short-circuits to the reference
symbol — the `$ref` check precedes the type-array handling — instead
of a nullable-wrapped expression. -/
theorem claim_C7_counterexample :
    convertJsonSchemaToZod
        (.obj [("$ref", .str "#/components/schemas/Foo"),
               ("type", .arr [.str "string", .str "null"])]) [] =
        .ok ("FooSchema", ["Foo"]) ∧
      ("FooSchema" : String) ≠ "z.string().nullable()" :=
  ⟨(convert_ref (s := .obj [("$ref", .str "#/components/schemas/Foo"),
        ("type", .arr [.str "string", .str "null"])])
      (r := "#/components/schemas/Foo") rfl rfl (by decide) []).trans rfl,
   by decide⟩

/-! ### C8: claim-side response selection -/

/-- The claim's fallback test: the response's description contains the
case-insensitive substring `success`. -/
def c8DescSuccess (r : JVal) : Bool :=
  match jsGet r "description" with
  | .str d => strIncludes (toLowerStr d) "success"
  | _ => false

/-- The claim's fallback scan: first response entry with a success
description. -/
def c8FindSuccess : List JVal → Option JVal
  | [] => none
  | r :: rest => if c8DescSuccess r then some r else c8FindSuccess rest

/-- The claim's selection: first present response among `200`, `201`,
`202` in priority order, else the first success-description entry. -/
def c8Select (responses : JVal) : Option JVal :=
  if isDef (jsGet responses "200") then some (jsGet responses "200")
  else if isDef (jsGet responses "201") then some (jsGet responses "201")
  else if isDef (jsGet responses "202") then some (jsGet responses "202")
  else c8FindSuccess ((jsFields responses).map Prod.snd)

def optJS : Option JVal → JVal
  | some v => v
  | none => JVal.undef

/-- A well-shaped response entry: an object whose `description` is
absent or a string. -/
def responseWF (r : JVal) : Bool :=
  match r with
  | .obj _ =>
      (match jsGet r "description" with
       | .undef => true
       | .str _ => true
       | _ => false)
  | _ => false

/-- A well-shaped `responses` record: an object of well-shaped
response entries. -/
def responsesWF (responses : JVal) : Bool :=
  match responses with
  | .obj fs => fs.all (fun kv => responseWF kv.2)
  | _ => false

theorem responseDescSuccess_eq {r : JVal} (h : responseWF r = true) :
    responseDescSuccess r = .ok (c8DescSuccess r) := by
  rcases r with _ | _ | b | n | st | xs | fs <;> simp [responseWF] at h
  rw [responseDescSuccess, c8DescSuccess]
  · rcases hd : jsGet (.obj fs) "description" with _ | _ | b | n | d | xs | gs <;>
      rw [hd] at h <;> first | rfl | simp at h
  · intro hcon; cases hcon
  · intro hcon; cases hcon

theorem findSuccessResponse_eq {l : List JVal} (h : ∀ r ∈ l, responseWF r = true) :
    findSuccessResponse l = .ok (c8FindSuccess l) := by
  induction l with
  | nil => rfl
  | cons r rest ih =>
      have hr := h r (List.mem_cons_self _ _)
      rw [findSuccessResponse, c8FindSuccess, responseDescSuccess_eq hr]
      by_cases hb : c8DescSuccess r = true
      · simp [hb, bind, Except.bind]
      · rw [Bool.not_eq_true] at hb
        simp only [hb, bind, Except.bind, if_false, Bool.false_eq_true]
        exact ih (fun x hx => h x (List.mem_cons_of_mem _ hx))

theorem lookupF_forall {fs : List (String × JVal)} {k : String} {p : JVal → Bool}
    (hall : ∀ kv ∈ fs, p kv.2 = true) : lookupF fs k = none ∨
      ∃ v, lookupF fs k = some v ∧ p v = true := by
  induction fs with
  | nil => exact Or.inl rfl
  | cons kv rest ih =>
      obtain ⟨key, value⟩ := kv
      rw [lookupF]
      by_cases hk : key == k
      · simp only [hk, if_true]
        exact Or.inr ⟨value, rfl, hall (key, value) (List.mem_cons_self _ _)⟩
      · simp only [Bool.not_eq_true] at hk
        simp only [hk, Bool.false_eq_true, if_false]
        exact ih (fun x hx => hall x (List.mem_cons_of_mem _ hx))

theorem selectSuccess_eq {responses : JVal} (h : responsesWF responses = true) :
    selectSuccessResponse responses = .ok (optJS (c8Select responses)) := by
  rcases responses with _ | _ | b | n | st | xs | fs
  case undef => simp [responsesWF] at h
  case jnull => simp [responsesWF] at h
  case bool => simp [responsesWF] at h
  case num => simp [responsesWF] at h
  case str => simp [responsesWF] at h
  case arr => simp [responsesWF] at h
  case obj =>
    have h' : fs.all (fun kv => responseWF kv.2) = true := h
    have hall := List.all_eq_true.mp h'
    have hkey : ∀ k : String,
        truthy (jsGet (JVal.obj fs) k) = isDef (jsGet (JVal.obj fs) k) := by
      intro k
      show truthy ((lookupF fs k).getD .undef) = isDef ((lookupF fs k).getD .undef)
      rcases hl : lookupF fs k with _ | v
      · rfl
      · have hwf : responseWF v = true := hall _ (lookupF_mem hl)
        rcases v with _ | _ | b2 | n2 | s2 | xs2 | fs2 <;>
          first | rfl | simp [responseWF] at hwf
    have hsel : selectSuccessResponse (JVal.obj fs) =
        (if truthy (jsGet (JVal.obj fs) "200") then Except.ok (jsGet (JVal.obj fs) "200")
         else if truthy (jsGet (JVal.obj fs) "201") then Except.ok (jsGet (JVal.obj fs) "201")
         else if truthy (jsGet (JVal.obj fs) "202") then Except.ok (jsGet (JVal.obj fs) "202")
         else (valuesOf (JVal.obj fs)).bind (fun vals =>
           (findSuccessResponse vals).bind (fun o =>
             match o with
             | some r => Except.ok r
             | none => Except.ok JVal.undef))) := rfl
    rw [hsel, c8Select]
    rw [hkey "200", hkey "201", hkey "202"]
    by_cases h200 : isDef (jsGet (JVal.obj fs) "200") = true
    · rw [if_pos h200, if_pos h200]
      rfl
    · rw [if_neg h200, if_neg h200]
      by_cases h201 : isDef (jsGet (JVal.obj fs) "201") = true
      · rw [if_pos h201, if_pos h201]
        rfl
      · rw [if_neg h201, if_neg h201]
        by_cases h202 : isDef (jsGet (JVal.obj fs) "202") = true
        · rw [if_pos h202, if_pos h202]
          rfl
        · rw [if_neg h202, if_neg h202]
          have hlwf : ∀ r ∈ fs.map Prod.snd, responseWF r = true := by
            intro r hr
            obtain ⟨kv, hkv, hrr⟩ := List.mem_map.mp hr
            rw [← hrr]
            exact hall kv hkv
          have hfind := findSuccessResponse_eq hlwf
          rw [show jsFields (JVal.obj fs) = fs from rfl]
          change (findSuccessResponse (fs.map Prod.snd)).bind
            (fun o => match o with
              | some r => Except.ok r
              | none => Except.ok JVal.undef) = _
          rw [hfind]
          rcases c8FindSuccess (fs.map Prod.snd) with _ | r <;> rfl

/-- C8: on a well-shaped `responses` record (an object whose entries
are response objects with string or absent descriptions) the selected
response is the first present entry among status codes 200, 201, 202
in that priority order, else the first entry whose description
contains the case-insensitive substring `success`, else none; the
output expression is `z.never()` when no response is selected, when
the selected response is falsy or has no truthy `content`, and when
the selected media-type entry is falsy or has no truthy `schema` — as
for the claim's 404-only operation. -/
theorem claim_C8 :
    (∀ responses : JVal, responsesWF responses = true →
        selectSuccessResponse responses = .ok (optJS (c8Select responses))) ∧
    (∀ (op : JVal) (schemas : List (String × String)),
        selectSuccessResponse (jsGet op "responses") = .ok .undef →
        generateOutputSchema op schemas = .ok ⟨"z.never()", []⟩) ∧
    (∀ (op : JVal) (schemas : List (String × String)) (resp : JVal),
        selectSuccessResponse (jsGet op "responses") = .ok resp →
        truthy resp = false ∨ truthy (jsGet resp "content") = false →
        generateOutputSchema op schemas = .ok ⟨"z.never()", []⟩) ∧
    (∀ (op : JVal) (schemas : List (String × String)) (resp : JVal),
        selectSuccessResponse (jsGet op "responses") = .ok resp →
        truthy (chosenContent (jsGet resp "content")) = false ∨
        truthy (jsGet (chosenContent (jsGet resp "content")) "schema") = false →
        generateOutputSchema op schemas = .ok ⟨"z.never()", []⟩) ∧
    generateOutputSchema
        (.obj [("responses", .obj [("404", .obj [("description", .str "Not found")])])]) [] =
      .ok ⟨"z.never()", []⟩ := by
  refine ⟨fun _ h => selectSuccess_eq h, ?_, ?_, ?_, rfl⟩
  · intro op schemas h
    rw [generateOutputSchema, h]
    rfl
  · intro op schemas resp hsel h
    rw [generateOutputSchema, hsel]
    rcases h with h | h <;> simp [bind, Except.bind, h]
  · intro op schemas resp hsel h
    rw [generateOutputSchema, hsel]
    rcases h with h | h <;> simp [bind, Except.bind, h]

theorem claim_C8_witness :
    selectSuccessResponse (.obj [("201", .obj [("description", .str "Created")])]) =
        .ok (.obj [("description", .str "Created")]) ∧
      generateOutputSchema (.obj [("responses", .obj [])]) [] = .ok ⟨"z.never()", []⟩ ∧
      generateOutputSchema
          (.obj [("responses", .obj [("200", .obj [("description", .str "ok")])])]) [] =
        .ok ⟨"z.never()", []⟩ ∧
      generateOutputSchema
          (.obj [("responses", .obj [("200", .obj [("content", .obj [])])])]) [] =
        .ok ⟨"z.never()", []⟩ :=
  ⟨(claim_C8.1 (.obj [("201", .obj [("description", .str "Created")])]) rfl).trans rfl,
   claim_C8.2.1 (.obj [("responses", .obj [])]) [] rfl,
   claim_C8.2.2.1 (.obj [("responses", .obj [("200", .obj [("description", .str "ok")])])])
     [] (.obj [("description", .str "ok")]) rfl (Or.inr rfl),
   claim_C8.2.2.2.1 (.obj [("responses", .obj [("200", .obj [("content", .obj [])])])])
     [] (.obj [("content", .obj [])]) rfl (Or.inl rfl)⟩

/-! ### C9: claim-side number-schema rendering -/

def c9IsInt (s : JVal) : Bool :=
  match jsGet s "type" with
  | .str "integer" => true
  | _ => false

/-- The claim's base expression for numeric types. -/
def c9Base (s : JVal) : String :=
  if c9IsInt s then "z.number().int()" else "z.number()"

/-- The claim's lower bound: emitted only when `minimum` is present,
exclusive exactly when `exclusiveMinimum` is truthy. -/
def c9Lower (s : JVal) : String :=
  if isDef (jsGet s "minimum") then
    (if truthy (jsGet s "exclusiveMinimum") then ".gt(" else ".gte(") ++
      jsToString (jsGet s "minimum") ++ ")"
  else ""

/-- The claim's upper bound, symmetric to [c9Lower]. -/
def c9Upper (s : JVal) : String :=
  if isDef (jsGet s "maximum") then
    (if truthy (jsGet s "exclusiveMaximum") then ".lt(" else ".lte(") ++
      jsToString (jsGet s "maximum") ++ ")"
  else ""

theorem str_append_empty (s : String) : s ++ "" = s := by
  cases s with
  | mk data =>
      show String.mk (data ++ []) = String.mk data
      rw [List.append_nil]

/-- C9: numeric schemas without an applicable enum render the claim's
bound structure — a lower bound only when `minimum` is present
(`.gt` when `exclusiveMinimum` is truthy, else `.gte`), symmetrically
for `maximum` — so a draft-2020 numeric `exclusiveMinimum` or
`exclusiveMaximum` alone produces no bound at all. -/
theorem claim_C9 :
    (∀ (s : JVal) (refs : List String), scalarRegion s →
        (jsGet s "type" = .str "number" ∨ jsGet s "type" = .str "integer") →
        convertJsonSchemaToZod s refs = (handleNumberSchema s).map (fun z => (z, refs))) ∧
    (∀ s : JVal, truthy (jsGet s "enum") = false → isDef (jsGet s "multipleOf") = false →
        handleNumberSchema s = .ok (c9Base s ++ c9Lower s ++ c9Upper s)) ∧
    handleNumberSchema (.obj [("type", .str "number"), ("exclusiveMinimum", .num 5)]) =
        .ok "z.number()" ∧
    handleNumberSchema (.obj [("type", .str "number"), ("exclusiveMaximum", .num 5)]) =
      .ok "z.number()" := by
  refine ⟨fun s refs h ht => convert_number h ht refs, ?_, rfl, rfl⟩
  intro s he hm
  rw [handleNumberSchema, if_neg (by rw [he]; exact Bool.false_ne_true)]
  congr 1
  rw [handleNumberSchemaBody]
  rw [show (match jsGet s "type" with | JVal.str "integer" => true | _ => false) =
        c9IsInt s from rfl]
  rw [hm]
  simp only [Bool.false_eq_true, if_false]
  rw [c9Base, c9Lower, c9Upper]
  by_cases hI : c9IsInt s = true
  · rw [if_pos hI, if_pos hI, str_append_empty]
    rfl
  · rw [if_neg hI, if_neg hI, str_append_empty]
    rfl

theorem claim_C9_witness :
    convertJsonSchemaToZod
        (.obj [("type", .str "integer"), ("minimum", .num 0),
               ("exclusiveMinimum", .bool true), ("maximum", .num 10)]) [] =
      .ok ("z.number().int().gt(0).lte(10)", []) := by
  have h1 := claim_C9.1
    (.obj [("type", .str "integer"), ("minimum", .num 0),
           ("exclusiveMinimum", .bool true), ("maximum", .num 10)]) []
    ⟨rfl, rfl, rfl, rfl⟩ (Or.inr rfl)
  have h2 := claim_C9.2.1
    (.obj [("type", .str "integer"), ("minimum", .num 0),
           ("exclusiveMinimum", .bool true), ("maximum", .num 10)]) rfl rfl
  rw [h1, h2]
  rfl

theorem cswi_fall_imports {schema : JVal} {schemas : List (String × String)}
    {res : SchemaResult}
    (h : (convertJsonSchemaToZod schema []).bind
        (fun p => Except.ok
          (⟨p.1, (p.2.filter (registeredTruthy schemas)).map importLine⟩ : SchemaResult)) =
      .ok res) :
    ∀ imp ∈ res.imports, ∃ name, imp = importLine name ∧
      registeredTruthy schemas name = true := by
  rcases hc : convertJsonSchemaToZod schema [] with e | p <;> rw [hc] at h
  · exact Except.noConfusion
      (show (Except.error e : Except String SchemaResult) = Except.ok res from h)
  · have h' : Except.ok
        (⟨p.1, (p.2.filter (registeredTruthy schemas)).map importLine⟩ : SchemaResult) =
        Except.ok res := h
    injection h' with h'
    subst h'
    intro imp hmem
    obtain ⟨name, hn, himp⟩ := List.mem_map.mp hmem
    exact ⟨name, himp.symm, (List.mem_filter.mp hn).2⟩

theorem cswiTopRef_some {schema : JVal} {schemas : List (String × String)}
    {t : SchemaResult} (h : cswiTopRef schema schemas = .ok (some t)) :
    ∃ name, t = ⟨name ++ "Schema", [importLine name]⟩ ∧
      registeredTruthy schemas name = true := by
  rw [cswiTopRef] at h
  by_cases ht : truthy (jsGet schema "$ref") = true
  · rw [if_pos ht] at h
    rcases hr : jsGet schema "$ref" with _ | _ | b | n | r | xs | fs <;> rw [hr] at h
    case pos.str =>
      have h2 : (if registeredTruthy schemas (lastSegment r) then
          Except.ok (some (⟨lastSegment r ++ "Schema",
            [importLine (lastSegment r)]⟩ : SchemaResult))
        else Except.ok none : Except String (Option SchemaResult)) = .ok (some t) := h
      by_cases hreg : registeredTruthy schemas (lastSegment r) = true
      · rw [if_pos hreg] at h2
        injection h2 with h2
        injection h2 with h2
        exact ⟨lastSegment r, h2.symm, hreg⟩
      · rw [if_neg hreg] at h2
        injection h2 with h2
        exact Option.noConfusion h2
    all_goals
      exact Except.noConfusion
        (show (Except.error "TypeError: schema.$ref.split is not a function" :
            Except String (Option SchemaResult)) = Except.ok (some t) from h)
  · rw [if_neg ht] at h
    injection h with h
    exact Option.noConfusion h

/-- C10: the gate for emitting an import is the truthiness of the
plain-object lookup `schemas[name]` (`registeredTruthy`): a `$ref`
whose trailing name makes that lookup falsy — neither registered nor
an `Object.prototype` key — still compiles to the symbol
`<Name>Schema` with no import, and every operation-level import
that is emitted passes that gate; a named-schema file keeps
exactly the import lines of its collected references other than the
schema's own name.  (The original claim said imports are emitted only
for names present in the registered mapping; the prototype chain
falsifies that — see the counterexample.) -/
theorem claim_C10 :
    (∀ (schema : JVal) (schemas : List (String × String)) (r : String),
        isObjectType schema = true → jsGet schema "$ref" = .str r → r ≠ "" →
        registeredTruthy schemas (lastSegment r) = false →
        convertSchemaWithImports schema schemas = .ok ⟨lastSegment r ++ "Schema", []⟩) ∧
    (∀ (schema : JVal) (schemas : List (String × String)) (res : SchemaResult),
        convertSchemaWithImports schema schemas = .ok res →
        ∀ imp ∈ res.imports, ∃ name, imp = importLine name ∧
          registeredTruthy schemas name = true) ∧
    (∀ (schemaName : String) (referencedSchemas : List String) (x : String),
        x ∈ schemaFileImports schemaName referencedSchemas ↔
          ∃ rf, rf ∈ referencedSchemas ∧ rf ≠ schemaName ∧ x = importLine rf) := by
  refine ⟨?_, ?_, ?_⟩
  · intro schema schemas r hobj href hne hunreg
    have ht : truthy (jsGet schema "$ref") = true := by
      have h0 : r.isEmpty = false := by
        cases hie : r.isEmpty
        · rfl
        · exact absurd ((String.isEmpty_iff r).mp hie) hne
      rw [href]
      simp [truthy, h0]
    have h1 : cswiTopRef schema schemas = .ok none := by
      rw [cswiTopRef, if_pos ht, href]
      show (if registeredTruthy schemas (lastSegment r) then
          Except.ok (some (⟨lastSegment r ++ "Schema",
            [importLine (lastSegment r)]⟩ : SchemaResult))
        else Except.ok none : Except String (Option SchemaResult)) = Except.ok none
      rw [if_neg (by rw [hunreg]; exact Bool.false_ne_true)]
    have hfil : List.filter (registeredTruthy schemas) (addRef [] (lastSegment r)) = [] := by
      show List.filter (registeredTruthy schemas) [lastSegment r] = []
      simp [List.filter_cons, hunreg]
    calc convertSchemaWithImports schema schemas
        = Except.ok (⟨lastSegment r ++ "Schema",
            ((addRef [] (lastSegment r)).filter (registeredTruthy schemas)).map
              importLine⟩ : SchemaResult) := by
          rw [convertSchemaWithImports, h1, convert_ref hobj href hne []]
          rfl
      _ = .ok ⟨lastSegment r ++ "Schema", []⟩ := by
          rw [hfil]
          rfl
  · intro schema schemas res h imp hmem
    rcases htop : cswiTopRef schema schemas with e | o
    · rw [convertSchemaWithImports, htop] at h
      exact Except.noConfusion
        (show (Except.error e : Except String SchemaResult) = Except.ok res from h)
    · rcases o with _ | topres
      · rw [convertSchemaWithImports, htop] at h
        have h' : (convertJsonSchemaToZod schema []).bind
            (fun p => Except.ok
              (⟨p.1, (p.2.filter (registeredTruthy schemas)).map importLine⟩ :
                SchemaResult)) = Except.ok res := h
        exact cswi_fall_imports h' imp hmem
      · rw [convertSchemaWithImports, htop] at h
        have h' : Except.ok topres = Except.ok res := h
        injection h' with h'
        subst h'
        obtain ⟨name, hts, hreg⟩ := cswiTopRef_some htop
        rw [hts] at hmem
        simp only [List.mem_singleton] at hmem
        exact ⟨name, hmem, hreg⟩
  · intro schemaName referencedSchemas x
    rw [schemaFileImports]
    constructor
    · intro hx
      obtain ⟨rf, hrf, hxe⟩ := List.mem_map.mp hx
      have hm := List.mem_filter.mp hrf
      exact ⟨rf, hm.1, by simpa using hm.2, hxe.symm⟩
    · rintro ⟨rf, h1, h2, rfl⟩
      exact List.mem_map.mpr ⟨rf, List.mem_filter.mpr ⟨h1, by simpa using h2⟩, rfl⟩

theorem claim_C10_witness :
    convertSchemaWithImports (.obj [("$ref", .str "#/components/schemas/Bar")]) [] =
      .ok ⟨"BarSchema", []⟩ := by
  have h := claim_C10.1 (.obj [("$ref", .str "#/components/schemas/Bar")]) []
    "#/components/schemas/Bar" rfl rfl (by decide) rfl
  exact h.trans rfl

/-- C10's original wording fails on the program: `schemas` is a plain
object, so `schemas["constructor"]` is truthy via the prototype chain
even with nothing registered, and a `$ref` whose trailing name is
`constructor` makes the program emit the symbol and an import for that
unregistered name. -/
theorem claim_C10_counterexample :
    convertSchemaWithImports (.obj [("$ref", .str "#/components/schemas/constructor")]) [] =
        .ok ⟨"constructorSchema", [importLine "constructor"]⟩ ∧
      ([] : List (String × String)).lookup "constructor" = none :=
  ⟨rfl, rfl⟩
